import Mathlib

/-!
Verification development for the fbproxy caching reverse proxy.

This file shallowly embeds the Python modules `fbproxy/lru.py`,
`fbproxy/hashdict.py`, `fbproxy/cache.py`, `fbproxy/apps.py`,
`fbproxy/requesthandler.py` and `fbproxy/rtendpoint.py` into Lean and
proves (or refutes) the behavioural claims of the specification.

Modelling conventions:

* Python dictionaries are insertion-ordered association lists
  (`aset` overwrites in place, `aerase` deletes).
* Python operations that can raise an exception are embedded as
  functions into `Option`; `none` models an uncaught exception
  (`KeyError`, `IndexError`, `AttributeError`, `TypeError`).  The state
  reached after a raising call is not observed by any claim, so the
  exceptional result carries no state.
* Python byte strings are Lean `String`s.
* `hashlib.sha1(...).digest()` is an external collaborator and is
  modelled as an abstract parameter `sha1 : String -> String`
  (a deterministic function of the hashed bytes, which is all the code
  relies on).
* The `json` standard library is an external collaborator; `jsonLoads`
  and `jsonDumps` model `json.loads` / `json.dumps` at their interface
  for the JSON fragment exchanged with the upstream (objects, arrays,
  strings with the standard escapes, integers, non-integral number
  lexemes, booleans, null).  `jsonLoads = none` models `ValueError`.
* The upstream Graph API server is an oracle
  `Upstream : method -> path -> querystring -> response`.
-/

set_option autoImplicit false
set_option maxRecDepth 100000

namespace FbProxy

/-! ## Association lists: the model of Python dictionaries -/
/-- Dictionary lookup: first binding of the key, if any. -/
def alookup {α β : Type} [DecidableEq α] : List (α × β) → α → Option β
  | [], _ => none
  | (k0, v0) :: t, k => if k0 = k then some v0 else alookup t k

/-- Dictionary store `d[k] = v`: overwrite the first binding in place,
or append a fresh binding (Python dictionaries are modelled in
insertion order). -/
def aset {α β : Type} [DecidableEq α] : List (α × β) → α → β → List (α × β)
  | [], k, v => [(k, v)]
  | (k0, v0) :: t, k, v => if k0 = k then (k, v) :: t else (k0, v0) :: aset t k v

/-- Dictionary deletion `del d[k]` (no error if absent; callers that must
raise on a missing key test membership first). -/
def aerase {α β : Type} [DecidableEq α] : List (α × β) → α → List (α × β)
  | [], _ => []
  | (k0, v0) :: t, k => if k0 = k then aerase t k else (k0, v0) :: aerase t k

/-- Membership test `k in d`. -/
def acontains {α β : Type} [DecidableEq α] (l : List (α × β)) (k : α) : Bool :=
  (alookup l k).isSome

/-! ## Python string helpers

All string manipulation is done through structurally recursive functions
on character lists, so that every definition evaluates inside the
kernel. -/
/-- Python `str.strip(c)`: remove leading and trailing occurrences of `c`. -/
def strStrip (s : String) (c : Char) : String :=
  String.mk (((s.toList.dropWhile (· = c)).reverse.dropWhile (· = c)).reverse)

/-- Python `s.split(c)` (single-character separator, no maxsplit):
`""` yields `[""]`, adjacent separators yield empty pieces. -/
def splitCharAux (c : Char) : List Char → List (List Char)
  | [] => [[]]
  | c0 :: t =>
    if c0 = c then [] :: splitCharAux c t
    else
      match splitCharAux c t with
      | p :: ps => (c0 :: p) :: ps
      | [] => [[c0]]

def splitChar (s : String) (c : Char) : List String :=
  (splitCharAux c s.toList).map String.mk

/-- Does the string contain the character (Python `c in s`)? -/
def strContainsChar (s : String) (c : Char) : Bool :=
  s.toList.contains c

/-- ASCII upper-casing, as Python `str.upper` acts on the byte strings
involved here. -/
def asciiUpper (c : Char) : Char :=
  if 'a' ≤ c ∧ c ≤ 'z' then Char.ofNat (c.toNat - 32) else c

def strUpper (s : String) : String :=
  String.mk (s.toList.map asciiUpper)

/-- `sep.join(pieces)`. -/
def strJoin (sep : String) : List String → String
  | [] => ""
  | [s] => s
  | s :: t => s ++ sep ++ strJoin sep t

/-- Decimal digits of a natural number (fuel-indexed, structural). -/
def natDigitsAux : Nat → Nat → List Char → List Char
  | 0, _, acc => acc
  | fuel + 1, n, acc =>
    let d := Char.ofNat ('0'.toNat + n % 10)
    if n < 10 then d :: acc
    else natDigitsAux fuel (n / 10) (d :: acc)

def natStr (n : Nat) : String :=
  String.mk (natDigitsAux (n + 1) n [])

/-- Python `str(i)` for an integer. -/
def intStr : Int → String
  | .ofNat n => natStr n
  | .negSucc n => "-" ++ natStr (n + 1)

/-- Python `s.split(c, 1)`: split at the first occurrence only; `none` if
the separator does not occur. -/
def splitOnceAux (c : Char) : List Char → Option (List Char × List Char)
  | [] => none
  | c0 :: t =>
    if c0 = c then some ([], t)
    else match splitOnceAux c t with
      | some (a, b) => some (c0 :: a, b)
      | none => none

def splitOnce (s : String) (c : Char) : Option (String × String) :=
  (splitOnceAux c s.toList).map (fun p => (String.mk p.1, String.mk p.2))

/-- Value of a hexadecimal digit. -/
def hexVal (c : Char) : Option Nat :=
  if '0' ≤ c ∧ c ≤ '9' then some (c.toNat - '0'.toNat)
  else if 'a' ≤ c ∧ c ≤ 'f' then some (c.toNat - 'a'.toNat + 10)
  else if 'A' ≤ c ∧ c ≤ 'F' then some (c.toNat - 'A'.toNat + 10)
  else none

/-- Hexadecimal digit (uppercase) of a value below 16. -/
def hexDigitU (n : Nat) : Char :=
  if n < 10 then Char.ofNat ('0'.toNat + n) else Char.ofNat ('A'.toNat + (n - 10))

/-- Percent-decoding as in `urllib.unquote`: a `%` followed by two hex
digits decodes to that byte; otherwise the `%` is kept literally. -/
def unquoteAux : List Char → List Char
  | [] => []
  | '%' :: a :: b :: t =>
    match hexVal a, hexVal b with
    | some ha, some hb => Char.ofNat (16 * ha + hb) :: unquoteAux t
    | _, _ => '%' :: unquoteAux (a :: b :: t)
  | c :: t => c :: unquoteAux t

/-- Python `urllib.unquote_plus` as used by `urlparse.parse_qs`:
`+` becomes a space, then percent-escapes are decoded. -/
def unquotePlus (s : String) : String :=
  String.mk (unquoteAux (s.toList.map (fun c => if c = '+' then ' ' else c)))

/-- Characters `urllib` never escapes (`always_safe`: letters, digits, `_.-`). -/
def urlSafe (c : Char) : Bool :=
  c.isAlpha || c.isDigit || c == '_' || c == '.' || c == '-'

/-- Python `urllib.quote_plus` with no extra safe characters: spaces become
`+`, safe characters pass through, everything else is `%`-escaped. -/
def quotePlusAux : List Char → List Char
  | [] => []
  | c :: t =>
    if c = ' ' then '+' :: quotePlusAux t
    else if urlSafe c then c :: quotePlusAux t
    else '%' :: hexDigitU (c.toNat / 16) :: hexDigitU (c.toNat % 16) :: quotePlusAux t

def quotePlus (s : String) : String :=
  String.mk (quotePlusAux s.toList)

/-! ## `urlparse.parse_qs` and `urllib.urlencode` -/
/-- One name-value pair of a query string: split at the first `=`;
pairs without `=` or with an empty value are dropped
(`keep_blank_values` is false). -/
def parseQsPair (s : String) : Option (String × String) :=
  match splitOnce s '=' with
  | none => none
  | some (n, v) => if v = "" then none else some (unquotePlus n, unquotePlus v)

/-- `urlparse.parse_qs(qs)`: split on `&` and `;`, decode the pairs and
group values by name, preserving first-appearance order of the names. -/
def parse_qs (qs : String) : List (String × List String) :=
  let pairs := (splitChar qs '&').flatMap (fun s => splitChar s ';')
  pairs.foldl
    (fun acc s =>
      match parseQsPair s with
      | none => acc
      | some (n, v) =>
        match alookup acc n with
        | some vs => aset acc n (vs ++ [v])
        | none => aset acc n [v])
    []

/-- A value held in the (decoded) query dictionary passed to the cache:
`parse_qs` produces lists of strings, `_fetchtable` later assigns plain
strings, and a missing access token is assigned as Python `None`. -/
inductive QVal where
  | strs (vs : List String)
  | str (s : String)
  | pynone
deriving DecidableEq

abbrev Query := List (String × QVal)

/-- Python `repr` of a list of strings, as `str()` renders it inside
`urllib.urlencode` for list values. -/
def pyReprStrList (vs : List String) : String :=
  "[" ++ strJoin ", " (vs.map (fun s => "'" ++ s ++ "'")) ++ "]"

/-- Python `str(v)` for the three value shapes the query dictionary holds. -/
def qvalStr : QVal → String
  | .strs vs => pyReprStrList vs
  | .str s => s
  | .pynone => "None"

/-- Python `v[0]` on a query value: first element of a list (IndexError on
an empty list), first character of a string (IndexError on an empty
string), TypeError on `None`. `none` models the exception. -/
def qvalIndex0 : QVal → Option String
  | .strs vs => vs.head?
  | .str s => if s = "" then none else some (String.mk [s.toList.headD ' '])
  | .pynone => none

/-- `urllib.urlencode(query)` without `doseq`: each value is rendered with
`str()` and percent-escaped. -/
def urlencode (q : Query) : String :=
  strJoin "&"
    (q.map (fun p => quotePlus p.1 ++ "=" ++ quotePlus (qvalStr p.2)))

/-- Lift a `parse_qs` result to a cache query dictionary. -/
def toQuery (l : List (String × List String)) : Query :=
  l.map (fun p => (p.1, QVal.strs p.2))

/-! ## JSON: the model of the `json` standard library collaborator -/
inductive Json where
  | null
  | bool (b : Bool)
  | num (n : Int)
  | numF (lexeme : String)
  | str (s : String)
  | arr (elts : List Json)
  | obj (mems : List (String × Json))

/-- Whitespace skipped by the JSON grammar. -/
def jsSkipWs : List Char → List Char
  | c :: t => if c = ' ' ∨ c = '\t' ∨ c = '\n' ∨ c = '\r' then jsSkipWs t else c :: t
  | [] => []

/-- Prepend a decoded character to a string-parse result. -/
def jsStrCons (c : Char) (p : String × List Char) : String × List Char :=
  (String.mk (c :: p.1.toList), p.2)

/-- Parse the body of a JSON string (the opening quote already consumed). -/
def jsString : List Char → Option (String × List Char)
  | [] => none
  | '"' :: t => some ("", t)
  | '\\' :: '"' :: t => (jsString t).map (jsStrCons '"')
  | '\\' :: '\\' :: t => (jsString t).map (jsStrCons '\\')
  | '\\' :: '/' :: t => (jsString t).map (jsStrCons '/')
  | '\\' :: 'b' :: t => (jsString t).map (jsStrCons (Char.ofNat 8))
  | '\\' :: 'f' :: t => (jsString t).map (jsStrCons (Char.ofNat 12))
  | '\\' :: 'n' :: t => (jsString t).map (jsStrCons '\n')
  | '\\' :: 'r' :: t => (jsString t).map (jsStrCons '\r')
  | '\\' :: 't' :: t => (jsString t).map (jsStrCons '\t')
  | '\\' :: 'u' :: a :: b :: c :: d :: t =>
    match hexVal a, hexVal b, hexVal c, hexVal d with
    | some ha, some hb, some hc, some hd =>
      (jsString t).map (jsStrCons (Char.ofNat (((ha * 16 + hb) * 16 + hc) * 16 + hd)))
    | _, _, _, _ => none
  | '\\' :: _ => none
  | c :: t =>
    if c.toNat < 32 then none
    else (jsString t).map (jsStrCons c)

/-- Digits of a decimal literal. -/
def jsDigits : List Char → List Char × List Char
  | c :: t =>
    if c.isDigit then
      let (ds, r) := jsDigits t
      (c :: ds, r)
    else ([], c :: t)
  | [] => ([], [])

def digitsToNat (ds : List Char) : Nat :=
  ds.foldl (fun acc c => acc * 10 + (c.toNat - '0'.toNat)) 0

/-- Parse a JSON number. Integral literals become `Json.num`; literals with
a fraction or exponent keep their lexeme as `Json.numF` (they parse to a
Python float, which no claim inspects numerically). -/
def jsNumber (cs : List Char) : Option (Json × List Char) :=
  let (neg, cs1) := match cs with
    | '-' :: t => (true, t)
    | _ => (false, cs)
  let intPart : Option (List Char × List Char) :=
    match cs1 with
    | '0' :: t => some (['0'], t)
    | c :: t =>
      if c.isDigit then
        let (ds, r) := jsDigits t
        some (c :: ds, r)
      else none
    | [] => none
  match intPart with
  | none => none
  | some (ds, rest) =>
    let fracPart : Option (List Char × List Char) :=
      match rest with
      | '.' :: t =>
        match jsDigits t with
        | ([], _) => none
        | (fs, r) => some ('.' :: fs, r)
      | _ => some ([], rest)
    match fracPart with
    | none => none
    | some (fs, rest1) =>
      let expPart : Option (List Char × List Char) :=
        match rest1 with
        | e :: t =>
          if e = 'e' ∨ e = 'E' then
            let (sgn, t1) := match t with
              | '+' :: t1 => (['+'], t1)
              | '-' :: t1 => (['-'], t1)
              | _ => (([] : List Char), t)
            match jsDigits t1 with
            | ([], _) => none
            | (es, r) => some (e :: (sgn ++ es), r)
          else some ([], e :: t)
        | [] => some ([], [])
      match expPart with
      | none => none
      | some (es, rest2) =>
        if fs = [] ∧ es = [] then
          let n : Int := Int.ofNat (digitsToNat ds)
          some (.num (if neg then -n else n), rest2)
        else
          some (.numF (String.mk ((if neg then ['-'] else []) ++ ds ++ fs ++ es)), rest2)

mutual

/-- Parse one JSON value (fuel-indexed; the fuel handed out by `jsonLoads`
exceeds the input length, so it never runs out there). -/
def jsValue : Nat → List Char → Option (Json × List Char)
  | 0, _ => none
  | fuel + 1, cs =>
    match jsSkipWs cs with
    | '{' :: t =>
      match jsSkipWs t with
      | '}' :: r => some (.obj [], r)
      | t1 =>
        match jsObjItems fuel t1 with
        | some (mems, r) => some (.obj (mems.foldl (fun d p => aset d p.1 p.2) []), r)
        | none => none
    | '[' :: t =>
      match jsSkipWs t with
      | ']' :: r => some (.arr [], r)
      | t1 =>
        match jsArrItems fuel t1 with
        | some (elts, r) => some (.arr elts, r)
        | none => none
    | '"' :: t => (jsString t).map (fun p => (Json.str p.1, p.2))
    | 't' :: 'r' :: 'u' :: 'e' :: t => some (.bool true, t)
    | 'f' :: 'a' :: 'l' :: 's' :: 'e' :: t => some (.bool false, t)
    | 'n' :: 'u' :: 'l' :: 'l' :: t => some (.null, t)
    | cs1 => jsNumber cs1

/-- Parse one or more object members (the empty-object case is handled by
the caller).  Duplicate keys are folded through `dict()` by the caller:
the later value wins. -/
def jsObjItems : Nat → List Char → Option (List (String × Json) × List Char)
  | 0, _ => none
  | fuel + 1, cs =>
    match jsSkipWs cs with
    | '"' :: t =>
      match jsString t with
      | none => none
      | some (key, r1) =>
        match jsSkipWs r1 with
        | ':' :: r2 =>
          match jsValue fuel r2 with
          | none => none
          | some (v, r3) =>
            match jsSkipWs r3 with
            | ',' :: r4 =>
              match jsObjItems fuel r4 with
              | some (mems, r5) => some ((key, v) :: mems, r5)
              | none => none
            | '}' :: r4 => some ([(key, v)], r4)
            | _ => none
        | _ => none
    | _ => none

/-- Parse one or more array elements (the empty-array case is handled by
the caller). -/
def jsArrItems : Nat → List Char → Option (List Json × List Char)
  | 0, _ => none
  | fuel + 1, cs =>
    match jsValue fuel cs with
    | none => none
    | some (v, r1) =>
      match jsSkipWs r1 with
      | ',' :: r2 =>
        match jsArrItems fuel r2 with
        | some (elts, r3) => some (v :: elts, r3)
        | none => none
      | ']' :: r2 => some ([v], r2)
      | _ => none

end

/-- Model of `json.loads`: parse a complete JSON document; `none` models
`ValueError`. -/
def jsonLoads (s : String) : Option Json :=
  match jsValue (s.length + 1) s.toList with
  | some (v, rest) => if jsSkipWs rest = [] then some v else none
  | none => none

/-- Escape one character as `json.dumps` does for ASCII output. -/
def jsEscapeChar (c : Char) : List Char :=
  if c = '"' then ['\\', '"']
  else if c = '\\' then ['\\', '\\']
  else if c = '\n' then ['\\', 'n']
  else if c = '\r' then ['\\', 'r']
  else if c = '\t' then ['\\', 't']
  else if c.toNat = 8 then ['\\', 'b']
  else if c.toNat = 12 then ['\\', 'f']
  else if c.toNat < 32 then
    ['\\', 'u', '0', '0', hexDigitU (c.toNat / 16), hexDigitU (c.toNat % 16)]
  else [c]

def jsQuote (s : String) : String :=
  "\"" ++ String.mk (s.toList.flatMap jsEscapeChar) ++ "\""

mutual

/-- Model of `json.dumps` with its default separators. -/
def jsonDumps : Json → String
  | .null => "null"
  | .bool true => "true"
  | .bool false => "false"
  | .num n => toString n
  | .numF lx => lx
  | .str s => jsQuote s
  | .arr elts => "[" ++ jsonDumpsList elts ++ "]"
  | .obj mems => "\x7b" ++ jsonDumpsMems mems ++ "\x7d"

def jsonDumpsList : List Json → String
  | [] => ""
  | [x] => jsonDumps x
  | x :: xs => jsonDumps x ++ ", " ++ jsonDumpsList xs

def jsonDumpsMems : List (String × Json) → String
  | [] => ""
  | [p] => jsQuote p.1 ++ ": " ++ jsonDumps p.2
  | p :: ps => jsQuote p.1 ++ ": " ++ jsonDumps p.2 ++ ", " ++ jsonDumpsMems ps

end

/-! ## `lru.py`: the LRU cache

The doubly linked list is embedded as a store of nodes addressed by
allocation number (Python object identity); `prev`/`successor` hold
addresses.  Every pointer assignment of the Python methods becomes one
sequential store update, so aliasing behaves exactly as in Python.
`none` results model uncaught exceptions (`AttributeError` on `None`,
`KeyError` from `del`). -/
structure Node (K V : Type) where
  key : K
  value : V
  prev : Option Nat
  successor : Option Nat

abbrev NodeStore (K V : Type) := List (Nat × Node K V)

def nlookup {K V : Type} (ns : NodeStore K V) (i : Nat) : Option (Node K V) :=
  alookup ns i

def nmodify {K V : Type} (ns : NodeStore K V) (i : Nat) (f : Node K V → Node K V) :
    NodeStore K V :=
  ns.map (fun p => if p.1 = i then (p.1, f p.2) else p)

def setPrev {K V : Type} (ns : NodeStore K V) (i : Nat) (x : Option Nat) : NodeStore K V :=
  nmodify ns i (fun n => { n with prev := x })

def setSucc {K V : Type} (ns : NodeStore K V) (i : Nat) (x : Option Nat) : NodeStore K V :=
  nmodify ns i (fun n => { n with successor := x })

def setVal {K V : Type} (ns : NodeStore K V) (i : Nat) (v : V) : NodeStore K V :=
  nmodify ns i (fun n => { n with value := v })

/-- `Node.remove`: unlink this node, one pointer write at a time. -/
def nodeRemove {K V : Type} (ns : NodeStore K V) (i : Nat) : Option (NodeStore K V) :=
  match nlookup ns i with
  | none => none
  | some n =>
    let ns1 := match n.prev with
      | some p => setSucc ns p n.successor
      | none => ns
    let ns2 := match n.successor with
      | some s => setPrev ns1 s n.prev
      | none => ns1
    some (setSucc (setPrev ns2 i none) i none)

/-- `Node.setnext`: place this node before `next`, one pointer write at a
time (reading the store between writes, as Python attribute access does;
this matters when `next` is the node itself). -/
def nodeSetnext {K V : Type} (ns : NodeStore K V) (i : Nat) (next : Option Nat) :
    Option (NodeStore K V) :=
  let ns1 := setSucc ns i next
  match next with
  | some m =>
    match nlookup ns1 m with
    | none => none
    | some mn =>
      let ns2 := setPrev ns1 i mn.prev
      let ns3 := setPrev ns2 m (some i)
      match nlookup ns3 i with
      | none => none
      | some selfn =>
        match selfn.prev with
        | some p => some (setSucc ns3 p (some i))
        | none => some ns3
  | none => some (setPrev ns1 i none)

structure LRU (K V : Type) where
  count : Int
  size : Int
  head : Option Nat
  tail : Option Nat
  index : List (K × Nat)
  nodes : NodeStore K V
  nextId : Nat

def lruNew (K V : Type) (size : Int) : LRU K V :=
  ⟨0, size, none, none, [], [], 0⟩

/-- One iteration of the `checksize` pruning loop.  The fuel equals the
number of iterations the Python loop performs, so running out of fuel
coincides with loop exit. -/
def checksizeLoop {K : Type} [DecidableEq K] {V : Type} :
    Nat → LRU K V → Option (LRU K V)
  | 0, lru => some lru
  | fuel + 1, lru =>
    if lru.count > lru.size then
      match lru.tail with
      | none => none
      | some i =>
        match nlookup lru.nodes i with
        | none => none
        | some n =>
          if acontains lru.index n.key then
            match nodeRemove lru.nodes i with
            | none => none
            | some ns1 =>
              checksizeLoop fuel
                { lru with
                  index := aerase lru.index n.key
                  tail := n.prev
                  nodes := ns1
                  count := lru.count - 1 }
          else none
    else some lru

/-- `LRU.checksize`: prune from the tail while over capacity. -/
def lruChecksize {K : Type} [DecidableEq K] {V : Type} (lru : LRU K V) : Option (LRU K V) :=
  checksizeLoop (lru.count - lru.size).toNat lru

/-- `LRU.__getitem__`: on a hit the node is unlinked and linked in front of
the current head, but `head` (and `tail`) are not updated. -/
def lruGetitem {K : Type} [DecidableEq K] {V : Type} (lru : LRU K V) (key : K) :
    Option (LRU K V × Option V) :=
  match alookup lru.index key with
  | none => some (lru, none)
  | some i =>
    match nodeRemove lru.nodes i with
    | none => none
    | some ns1 =>
      match nodeSetnext ns1 i lru.head with
      | none => none
      | some ns2 =>
        match nlookup ns2 i with
        | none => none
        | some n => some ({ lru with nodes := ns2 }, some n.value)

/-- `LRU.__setitem__`. -/
def lruSetitem {K : Type} [DecidableEq K] {V : Type} (lru : LRU K V) (key : K) (v : V) :
    Option (LRU K V) :=
  match alookup lru.index key with
  | some i =>
    match nodeRemove lru.nodes i with
    | none => none
    | some ns1 =>
      match nodeSetnext ns1 i lru.head with
      | none => none
      | some ns2 =>
        lruChecksize { lru with nodes := setVal ns2 i v, head := some i }
  | none =>
    let i := lru.nextId
    let ns0 := lru.nodes ++ [(i, ⟨key, v, none, none⟩)]
    let index1 := aset lru.index key i
    let tail1 := if lru.head = none then some i else lru.tail
    match nodeSetnext ns0 i lru.head with
    | none => none
    | some ns1 =>
      lruChecksize
        { count := lru.count + 1
          size := lru.size
          head := some i
          tail := tail1
          index := index1
          nodes := ns1
          nextId := lru.nextId + 1 }

/-- `LRU.__contains__`: no reordering. -/
def lruContains {K : Type} [DecidableEq K] {V : Type} (lru : LRU K V) (key : K) : Bool :=
  acontains lru.index key

/-- `LRU.__delitem__`. -/
def lruDelitem {K : Type} [DecidableEq K] {V : Type} (lru : LRU K V) (key : K) :
    Option (LRU K V) :=
  match alookup lru.index key with
  | none => lruChecksize lru
  | some i =>
    match nlookup lru.nodes i with
    | none => none
    | some n =>
      let tail1 := if lru.tail = some i then n.prev else lru.tail
      let head1 := if lru.head = some i then n.successor else lru.head
      match nodeRemove lru.nodes i with
      | none => none
      | some ns1 =>
        lruChecksize
          { lru with
            index := aerase lru.index key
            count := lru.count - 1
            nodes := ns1
            tail := tail1
            head := head1 }

/-- An LRU operation of a test sequence. -/
inductive LruOp (K V : Type) where
  | get (k : K)
  | put (k : K) (v : V)
  | del (k : K)

/-- Run a sequence of LRU operations; `none` models an uncaught exception
in one of them (results of `get` are discarded, its reordering side
effect is kept). -/
def runLruOps {K : Type} [DecidableEq K] {V : Type} (lru : LRU K V) :
    List (LruOp K V) → Option (LRU K V)
  | [] => some lru
  | op :: ops =>
    match op with
    | .get k =>
      match lruGetitem lru k with
      | none => none
      | some (lru1, _) => runLruOps lru1 ops
    | .put k v =>
      match lruSetitem lru k v with
      | none => none
      | some lru1 => runLruOps lru1 ops
    | .del k =>
      match lruDelitem lru k with
      | none => none
      | some lru1 => runLruOps lru1 ops

/-- Keys currently stored (the dictionary index), in insertion order. -/
def lruKeys {K V : Type} (lru : LRU K V) : List K :=
  lru.index.map Prod.fst

/-! ## `apps.py`: per-application policy -/
/-- Python `set(list)`, modelled as first-occurrence deduplication (the
code only joins, intersects and tests membership, so the order is a
modelling choice). -/
def setOfList (l : List String) : List String :=
  l.foldl (fun acc s => if acc.contains s then acc else acc ++ [s]) []

/-- Python `set.add`. -/
def setAdd (l : List String) (s : String) : List String :=
  if l.contains s then l else l ++ [s]

structure App where
  id : String
  bad_fields : List String
  bad_conns : List String
  good_fields : List String
  good_conns : List String
  users : List String
  cred : Option String
  secret : Option String

structure AppConfig where
  app_id : String
  app_cred : Option String
  app_secret : Option String
  blacklist_fields : Option (List String)
  blacklist_connections : Option (List String)
  whitelist_fields : Option (List String)
  whitelist_connections : Option (List String)

/-- `App.__init__`. -/
def appFromConfig (cfg : AppConfig) : App :=
  let bad_fields := setOfList (cfg.blacklist_fields.getD [])
  let bad_conns := setOfList (cfg.blacklist_connections.getD [])
  let good_fields0 := setOfList (cfg.whitelist_fields.getD [])
  let good_conns0 := setOfList (cfg.whitelist_connections.getD [])
  { id := cfg.app_id
    bad_fields := bad_fields
    bad_conns := bad_conns
    good_fields := good_fields0.filter (fun s => !(bad_fields.contains s))
    good_conns := good_conns0.filter (fun s => !(bad_conns.contains s))
    users := []
    cred := cfg.app_cred
    secret := cfg.app_secret }

/-- `App.check_user`: add the requestor to the known users, test the
requestee, and (when a distinct default app was given) add the requestor
to the default app as well.  `dfltIsSelf` models the Python object
identity test `default != self`. -/
def App.check_user (self : App) (requestor requestee : String)
    (dflt : Option App) (dfltIsSelf : Bool) : Bool × App × Option App :=
  let users1 := setAdd self.users requestor
  let ok := users1.contains requestee
  let self1 := { self with users := users1 }
  match dflt, dfltIsSelf with
  | some d, false => (ok, self1, some { d with users := setAdd d.users requestor })
  | _, _ => (ok, self1, dflt)

/-- `App.check_request`. -/
def App.check_request (self : App) (pathparts : List String) (fields : List String) : Bool :=
  match pathparts with
  | [_] => fields.all (fun f => self.good_fields.contains f)
  | [_, conn] => self.good_conns.contains conn
  | _ => false

abbrev Apps := List (String × App)

/-- `apps.init`: build the registry and synthesize the `"default"` app if
missing.  `none` models the `TypeError` that `reduce` raises on an empty
sequence when no app at all is configured. -/
def appsInit (configapps : List AppConfig) : Option Apps :=
  let apps := configapps.foldl (fun acc cfg => aset acc cfg.app_id (appFromConfig cfg)) []
  if acontains apps "default" then some apps
  else
    match apps.map (fun p => p.2.good_fields), apps.map (fun p => p.2.good_conns) with
    | gf0 :: gfs, gc0 :: gcs =>
      let inter := gfs.foldl (fun a b => a.filter (fun s => b.contains s)) gf0
      let interC := gcs.foldl (fun a b => a.filter (fun s => b.contains s)) gc0
      let base := appFromConfig ⟨"default", none, none, none, none, none, none⟩
      some (aset apps "default" { base with good_fields := inter, good_conns := interC })
    | _, _ => none

/-! ## `hashdict.py`: the deduplicating dictionary -/
structure HashedDictionary (V : Type) where
  content : List (String × V)
  keymap : List (String × String)

def hdNew (V : Type) : HashedDictionary V := ⟨[], []⟩

/-- Result of `HashedDictionary.__getitem__`: `err` models the `KeyError`
raised when a recorded hash is missing from `content`, `pyNone` the
Python `None` returned for an unknown key. -/
inductive HdGet (V : Type) where
  | err
  | pyNone
  | found (v : V)

def hdGetitem {V : Type} (d : HashedDictionary V) (k : String) : HdGet V :=
  match alookup d.keymap k with
  | some h =>
    match alookup d.content h with
    | some v => .found v
    | none => .err
  | none => .pyNone

/-- `HashedDictionary.__setitem__`: record the key's hash; store the data
only when the hash is new. -/
def hdSetitem {V : Type} (sha1 : String → String) (d : HashedDictionary V)
    (k : String) (storedData : V) (valhashed : String) : HashedDictionary V :=
  let valhash := sha1 valhashed
  let keymap1 := aset d.keymap k valhash
  if acontains d.content valhash then { content := d.content, keymap := keymap1 }
  else { content := aset d.content valhash storedData, keymap := keymap1 }

def hdContains {V : Type} (d : HashedDictionary V) (k : String) : Bool :=
  acontains d.keymap k

def hdContainsHash {V : Type} (sha1 : String → String) (d : HashedDictionary V)
    (valhashdata : String) : Bool :=
  acontains d.content (sha1 valhashdata)

/-- The Dedup-Map invariant: every recorded hash has a content entry. -/
def hdInv {V : Type} (d : HashedDictionary V) : Prop :=
  ∀ k h, alookup d.keymap k = some h → ∃ v, alookup d.content h = some v

/-- A sequence of `put` operations (the only mutating operation the class
has). -/
def runHdPuts {V : Type} (sha1 : String → String) (d : HashedDictionary V) :
    List (String × V × String) → HashedDictionary V
  | [] => d
  | (k, v, raw) :: ops => runHdPuts sha1 (hdSetitem sha1 d k v raw) ops

/-! ## `cache.py`: the two-tier proxy cache -/
/-- The value slot of a cache entry: a parsed field table for direct-user
requests, a raw body for connection requests. -/
inductive Payload where
  | table (t : List (String × Json))
  | body (s : String)

structure Entry where
  statusline : String
  headers : List (String × String)
  payload : Payload

/-- The inner Dedup Map of the cache stores Python tuples or (through the
`(None, data)` store in `_fetchtable`) possibly `None`. -/
abbrev CacheHD := HashedDictionary (Option Entry)

structure UpstreamResp where
  status : Int
  reason : String
  headers : List (String × String)
  body : String

/-- The upstream Graph API oracle: method, path, query string. -/
abbrev Upstream := String → String → String → UpstreamResp

structure FetchRes where
  statusline : String
  headers : List (String × String)
  body : String
  status : Int

/-- `cache.fetch_tuple` (over `ProxyRequestHandler.fetchurl`). -/
def fetch_tuple (server : Upstream) (path querystring : String) : FetchRes :=
  let r := server "GET" path querystring
  ⟨intStr r.status ++ " " ++ r.reason, r.headers, r.body, r.status⟩

/-- `ProxyRequestHandler.parse_access_token`: split on the first `-`, then
on `|`; exactly four pieces or failure.  `none` models the `False`
return (including the caught `IndexError` when there is no `-`). -/
def parse_access_token (acctok : String) : Option (String × String × String × String) :=
  match splitOnce acctok '-' with
  | none => none
  | some (pre, post) =>
    match (splitChar pre '|') ++ (splitChar post '|') with
    | [a, b, c, d] => some (a, b, c, d)
    | _ => none

/-- `cache._response_to_table`: `none` models the uncaught
`AttributeError` raised when the body parses to a JSON value that is not
an object (only `ValueError` is caught, yielding the empty table). -/
def response_to_table (body : String) : Option (List (String × Json)) :=
  match jsonLoads body with
  | none => some []
  | some (.obj mems) => some mems
  | some _ => none

/-- Is `sub` a substring of `s` (Python `sub in s`)? -/
def listHasPre {α : Type} [DecidableEq α] : List α → List α → Bool
  | _, [] => true
  | [], _ :: _ => false
  | a :: t, b :: u => a = b && listHasPre t u

def listHasSub {α : Type} [DecidableEq α] : List α → List α → Bool
  | [], sub => sub.isEmpty
  | a :: t, sub => listHasPre (a :: t) sub || listHasSub t sub

def strHasSubstr (s sub : String) : Bool :=
  listHasSub s.toList sub.toList

/-- The `else` loop of `get_response`: copy the non-underscore keys.
`none` models the `IndexError` from `key[0]` on an empty key. -/
def tableNonUnderscore (t : List (String × Json)) : Option (List (String × Json)) :=
  t.foldl
    (fun acc p =>
      match acc with
      | none => none
      | some r =>
        match p.1.toList with
        | [] => none
        | c :: _ => if c = '_' then some r else some (aset r p.1 p.2))
    (some [])

/-- `cache.get_response`, over whatever Python value sits in the `table`
slot.  On a raw-body (string) value the Python code crashes with a
`TypeError` as soon as a requested field occurs as a substring, crashes
with an `AttributeError` when no fields were requested, and otherwise
serializes an empty object. -/
def get_response (p : Payload) (fields : Option String) : Option String :=
  let fieldsTruthy : Option String :=
    match fields with
    | some s => if s = "" then none else some s
    | none => none
  match p with
  | .table t =>
    match fieldsTruthy with
    | some f =>
      let ret := (splitChar f ',').foldl
        (fun acc field =>
          match alookup t field with
          | some v => aset acc field v
          | none => acc)
        []
      some (jsonDumps (.obj ret))
    | none => (tableNonUnderscore t).map (fun ret => jsonDumps (.obj ret))
  | .body s =>
    match fieldsTruthy with
    | some f =>
      if (splitChar f ',').any (fun field => strHasSubstr s field) then none
      else some (jsonDumps (.obj []))
    | none => none

/-- Read-back step of `_fetchtable`: `(statusline, headers, table) =
hashdict[key]`; unpacking `None` or a missing hash raises. -/
def fetchtableRead (hd1 : CacheHD) (key : String) :
    Option (CacheHD × String × List (String × String) × Payload × Int) :=
  match hdGetitem hd1 key with
  | .found (some e) => some (hd1, e.statusline, e.headers, e.payload, 200)
  | _ => none

/-- The query string of the expanded fetch made by `_fetchtable` (fields
replaced by the app's full good-field set, access token restored). -/
def expandedQS (query : Query) (accesstoken : Option String) (app : App) : String :=
  let q1 := aset query "fields" (QVal.str (strJoin "," app.good_fields))
  let q2 := aset q1 "access_token"
    (match accesstoken with
      | some t => QVal.str t
      | none => QVal.pynone)
  urlencode q2

/-- `cache._fetchtable`. -/
def fetchtable (sha1 : String → String) (server : Upstream) (query : Query) (path : String)
    (accesstoken : Option String) (app : App) (hd : CacheHD) (key : String) :
    Option (CacheHD × String × List (String × String) × Payload × Int) :=
  let r := fetch_tuple server path (expandedQS query accesstoken app)
  if r.status ≠ 200 then
    some (hd, r.statusline, r.headers, .body r.body, r.status)
  else if hdContainsHash sha1 hd r.body = false then
    match response_to_table r.body with
    | none => none
    | some tbl =>
      fetchtableRead (hdSetitem sha1 hd key (some ⟨r.statusline, r.headers, .table tbl⟩) r.body) key
  else
    fetchtableRead (hdSetitem sha1 hd key none r.body) key

structure ProxyLruCache where
  cache : LRU String CacheHD

def cacheNew (size : Int) : ProxyLruCache := ⟨lruNew String CacheHD size⟩

/-- The response triple a cache call returns. -/
abbrev HResp := String × List (String × String) × Payload

/-- Parameter extraction at the top of `handle_request` (access token,
fields, outer key and dedup sub-key). -/
structure HRParams where
  accesstoken : Option String
  appid : String
  uid : String
  usetable : Bool
  fields : Option String
  query2 : Query
  key : String
  subkey : String

def hr_params (query : Query) (path : String) : Option HRParams :=
  let step1 : Option (Option String × Option (String × String × String × String) × Query) :=
    match alookup query "access_token" with
    | some qv =>
      match qvalIndex0 qv with
      | none => none
      | some tok => some (some tok, parse_access_token tok, aerase query "access_token")
    | none => some (none, none, query)
  match step1 with
  | none => none
  | some (accesstoken, parts, q1) =>
    let appid := match parts with | some pr => pr.1 | none => "0"
    let uid := match parts with | some pr => pr.2.2.1 | none => "0"
    let usetable := !(strContainsChar path '/')
    let step2 : Option (Option String × Query) :=
      if acontains q1 "fields" && usetable then
        match alookup q1 "fields" with
        | some qv => (qvalIndex0 qv).map (fun f => (some f, aerase q1 "fields"))
        | none => none
      else some (none, q1)
    match step2 with
    | none => none
    | some (fields, q2) =>
      some
        { accesstoken := accesstoken
          appid := appid
          uid := uid
          usetable := usetable
          fields := fields
          query2 := q2
          key := path ++ "__" ++ appid
          subkey := uid ++ "__" ++ urlencode q2 }

/-- The critical section of `handle_request`: look up or install the
Dedup Map for the outer key and read the sub-key's truthy value. -/
def hr_lock (c : LRU String CacheHD) (key subkey : String) :
    Option (LRU String CacheHD × CacheHD × Option Entry) :=
  if lruContains c key then
    match lruGetitem c key with
    | some (c1, some hd) =>
      match hdGetitem hd subkey with
      | .err => none
      | .pyNone => some (c1, hd, none)
      | .found sv => some (c1, hd, sv)
    | _ => none
  else
    match lruSetitem c key (hdNew (Option Entry)) with
    | some c1 => some (c1, hdNew (Option Entry), none)
    | none => none

def headerIsCL (h : String × String) : Bool :=
  strUpper h.1 == "CONTENT-LENGTH"

/-- The `headers.remove(header)` loop: drop the first Content-Length
header (case-insensitively), keep the rest. -/
def removeFirstCL : List (String × String) → List (String × String)
  | [] => []
  | h :: t => if headerIsCL h then t else h :: removeFirstCL t

def stripEntryCL (e : Entry) : Entry :=
  { e with headers := removeFirstCL e.headers }

/-- Python mutates the header list in place; the list is shared between
the response about to be returned and the entry stored in the Dedup Map,
so the stored entry's headers are stripped too.  This definition applies
that aliasing to the entry the sub-key points at. -/
def hdStripCL (hd : CacheHD) (subkey : String) : CacheHD :=
  match alookup hd.keymap subkey with
  | none => hd
  | some h =>
    { hd with content := hd.content.map (fun p =>
        if p.1 = h then (p.1, p.2.map stripEntryCL) else p) }

/-- Write the (Python-mutated) Dedup Map object back through the LRU node
that references it; if the key was evicted meanwhile the object is
unreachable and the mutation is invisible. -/
def lruWriteVal (c : LRU String CacheHD) (key : String) (v : CacheHD) :
    LRU String CacheHD :=
  match alookup c.index key with
  | some i => { c with nodes := setVal c.nodes i v }
  | none => c

/-- `ProxyLruCache.handle_request`. -/
def handle_request (sha1 : String → String) (server : Upstream) (st : ProxyLruCache)
    (query : Query) (path : String) (querystring : String) (app : App) :
    Option (ProxyLruCache × HResp) :=
  match hr_params query path with
  | none => none
  | some p =>
    match hr_lock st.cache p.key p.subkey with
    | none => none
    | some (c1, hd, value) =>
      match value with
      | some e =>
        if p.usetable then
          match get_response e.payload p.fields with
          | none => none
          | some body => some (⟨c1⟩, (e.statusline, e.headers, .body body))
        else
          some (⟨c1⟩, (e.statusline, e.headers, e.payload))
      | none =>
        if p.usetable then
          match fetchtable sha1 server p.query2 path p.accesstoken app hd p.subkey with
          | none => none
          | some (hd1, sl, hs, pay, stat) =>
            if stat ≠ 200 then
              some (⟨c1⟩, (sl, hs, pay))
            else
              let hs1 := removeFirstCL hs
              let hd2 := hdStripCL hd1 p.subkey
              match get_response pay p.fields with
              | none => none
              | some body => some (⟨lruWriteVal c1 p.key hd2⟩, (sl, hs1, .body body))
        else
          let r := fetch_tuple server path querystring
          if r.status = 200 then
            let hd1 := hdSetitem sha1 hd p.subkey
              (some ⟨r.statusline, r.headers, .body r.body⟩) r.body
            some (⟨lruWriteVal c1 p.key hd1⟩, (r.statusline, r.headers, .body r.body))
          else
            some (⟨c1⟩, (r.statusline, r.headers, .body r.body))

/-- `ProxyLruCache.invalidate`: best-effort deletion of the app's and the
anonymous entry for the URL. -/
def invalidate (st : ProxyLruCache) (appid url : String) : Option ProxyLruCache :=
  let key := url ++ "__" ++ appid
  match (if lruContains st.cache key then lruDelitem st.cache key else some st.cache) with
  | none => none
  | some c1 =>
    let key0 := url ++ "__0"
    match (if lruContains c1 key0 then lruDelitem c1 key0 else some c1) with
    | none => none
    | some c2 => some ⟨c2⟩

/-! ## `requesthandler.py`: the request gate -/
def USER_FIELDS : List String :=
  ["first_name", "last_name", "name", "hometown", "location", "about", "bio",
   "relationship_status", "significant_other", "work", "education", "gender"]

def INVALIDATE_MAP : List (String × List String) :=
  [("feed", ["statuses", "feed", "links"]), ("links", ["feed", "links"])]

def connections_blacklist : List String :=
  ["home", "tagged", "posts", "likes", "photos", "albums", "videos", "groups",
   "notes", "events", "inbox", "outbox", "updates"]

/-- The WSGI environment fields the handler reads. -/
structure Env where
  path_info : String
  query_string : String
  request_method : String

/-- The state of `self.acctoken_pieces` after the token block of
`__iter__`: a parsed quadruple, the `False` left by a malformed token, or
the `['', '', '', '']` placeholder used when no token was sent. -/
inductive TokPieces where
  | quad (a b c d : String)
  | failed
  | blank

/-- `self.acctoken_pieces[2]`; `none` models the `TypeError` of indexing
into `False`. -/
def tokUid : TokPieces → Option String
  | .quad _ _ c _ => some c
  | .blank => some ""
  | .failed => none

/-- `ProxyRequestHandler.cannotcache`. -/
def cannotcache (method : String) (uriparts : List String) : Bool :=
  if method ≠ "GET" then true
  else if uriparts.length > 2 then true
  else
    match uriparts with
    | [_, conn] => connections_blacklist.contains conn
    | _ => false

/-- `ProxyRequestHandler.invalidate_for_post`; `none` models the
`AttributeError` of calling `invalidate` on a missing cache. -/
def invalidate_for_post (cacheOpt : Option ProxyLruCache) (uriparts : List String)
    (app : App) : Option (Option ProxyLruCache) :=
  match uriparts with
  | [u0, u1] =>
    match alookup INVALIDATE_MAP u1 with
    | none => some cacheOpt
    | some sibs =>
      match cacheOpt with
      | none => none
      | some st =>
        (sibs.foldl
          (fun acc f => acc.bind (fun s => invalidate s app.id ("/" ++ u0 ++ "/" ++ f)))
          (some st)).map some
  | _ => some cacheOpt

/-- `App.check_user` as invoked on the registry: `selfKey` is the
dictionary key of the app the handler chose, so the object-identity test
against the default app is `selfKey = "default"` (registry values are
distinct objects). -/
def appsCheckUser (apps : Apps) (selfKey requestor requestee : String) :
    Option (Bool × Apps) :=
  match alookup apps selfKey with
  | none => none
  | some self =>
    let dflt := alookup apps "default"
    let isSelf := selfKey == "default"
    let (ok, self1, dflt1) := self.check_user requestor requestee dflt isSelf
    let apps1 := aset apps selfKey self1
    let apps2 :=
      match dflt1, isSelf with
      | some d, false => aset apps1 "default" d
      | _, _ => apps1
    some (ok, apps2)

/-- What a request handler yields: a pass-through of the upstream
response, or a response produced by the cache. -/
inductive IterResult where
  | passThrough (statusline : String) (headers : List (String × String)) (body : String)
  | cached (resp : HResp)

/-- `pass_through`: proxy the (rewritten) request verbatim. -/
def pass_through (server : Upstream) (env : Env) (path_info : String) : IterResult :=
  let r := server env.request_method path_info env.query_string
  .passThrough (intStr r.status ++ " " ++ r.reason) r.headers r.body

/-- `ProxyRequestHandler.__iter__` (no external validator configured, as
in every claim scenario).  Returns the yielded result together with the
final cache and app-registry state; `none` models an uncaught
exception. -/
def iterHandler (server : Upstream) (sha1 : String → String) (env : Env)
    (apps : Apps) (cacheOpt : Option ProxyLruCache) :
    Option (IterResult × Option ProxyLruCache × Apps) :=
  let uriparts0 := splitChar (strStrip env.path_info '/') '/'
  let query_parms := parse_qs env.query_string
  let tokStep : Option (TokPieces × Option String) :=
    match alookup query_parms "access_token" with
    | some vs =>
      match vs.head? with
      | none => none
      | some tokStr =>
        match parse_access_token tokStr with
        | some (a, b, c, d) =>
          some (.quad a b c d, if acontains apps a then some a else none)
        | none =>
          some (.failed, if acontains apps "default" then some "default" else none)
    | none => some (.blank, none)
  match tokStep with
  | none => none
  | some (tok, appKey0) =>
    match uriparts0 with
    | [] => none
    | u0 :: rest =>
      let fixStep : Option (List String) :=
        if strUpper u0 == "ME" then
          match tokUid tok with
          | none => none
          | some c => some (if c ≠ "" then c :: rest else u0 :: rest)
        else some (u0 :: rest)
      match fixStep with
      | none => none
      | some uriparts =>
        let path_info1 := strJoin "/" uriparts
        let appKey :=
          match appKey0 with
          | some k => some k
          | none => if acontains apps "default" then some "default" else none
        match appKey with
        | none => some (pass_through server env path_info1, cacheOpt, apps)
        | some selfKey =>
          if env.request_method ≠ "GET" then
            match alookup apps selfKey with
            | none => none
            | some app =>
              match invalidate_for_post cacheOpt uriparts app with
              | none => none
              | some cacheOpt1 =>
                some (pass_through server env path_info1, cacheOpt1, apps)
          else
            let fieldsStep : Option (List String) :=
              match alookup query_parms "fields" with
              | some vs =>
                match vs.head? with
                | none => none
                | some f => some (splitChar f ',')
              | none => some USER_FIELDS
            match fieldsStep with
            | none => none
            | some fields =>
              match tokUid tok with
              | none => none
              | some requestor =>
                match uriparts with
                | [] => none
                | requestee :: _ =>
                  match appsCheckUser apps selfKey requestor requestee with
                  | none => none
                  | some (ok, apps1) =>
                    if !ok then
                      some (pass_through server env path_info1, cacheOpt, apps1)
                    else if cannotcache env.request_method uriparts then
                      some (pass_through server env path_info1, cacheOpt, apps1)
                    else
                      match alookup apps1 selfKey with
                      | none => none
                      | some app =>
                        if !(app.check_request uriparts fields) then
                          some (pass_through server env path_info1, cacheOpt, apps1)
                        else
                          match cacheOpt with
                          | some st =>
                            match handle_request sha1 server st (toQuery query_parms)
                                path_info1 env.query_string app with
                            | none => none
                            | some (st1, resp) =>
                              some (.cached resp, some st1, apps1)
                          | none =>
                            some (pass_through server env path_info1, cacheOpt, apps1)

/-! ## `rtendpoint.py`: the realtime update endpoint (GET handshake) -/
/-- The responses `RealtimeUpdateHandler` can start. -/
inductive RtResp where
  | badRequest (msg : String)
  | forbidden
  | notFound
  | success (msg : String)
deriving DecidableEq

/-- CPython equality between a `str` and an `int` (the type of
`rturegister.randtoken`): always false, whatever the digits. -/
def pyStrEqInt (_s : String) (_n : Int) : Bool := false

/-- `RealtimeUpdateHandler.handle_validate`.  `none` models an
`IndexError` on a present-but-empty query value, which `parse_qs` never
produces. -/
def handle_validate (query_string : String) (randtoken : Int) : Option RtResp :=
  let req := parse_qs query_string
  match acontains req "hub.mode", (alookup req "hub.mode").bind List.head? with
  | false, _ => some (.badRequest "expecting hub.mode")
  | true, none => none
  | true, some m =>
    if m ≠ "subscribe" then some (.badRequest "expecting hub.mode")
    else
      match acontains req "hub.verify_token", (alookup req "hub.verify_token").bind List.head? with
      | false, _ => some .forbidden
      | true, none => none
      | true, some vt =>
        if pyStrEqInt vt randtoken then some .forbidden
        else
          match acontains req "hub.challenge", (alookup req "hub.challenge").bind List.head? with
          | false, _ => some (.badRequest "Missing challenge")
          | true, none => none
          | true, some ch => some (.success ch)

/-! ## State views used in claim statements -/
/-- Keys of the outer LRU. -/
def outerKeys (st : ProxyLruCache) : List String :=
  lruKeys st.cache

/-- The Dedup Map currently installed for an outer key. -/
def hdAt (st : ProxyLruCache) (key : String) : Option CacheHD :=
  (alookup st.cache.index key).bind
    (fun i => (nlookup st.cache.nodes i).map (fun nd => nd.value))

/-- The `keymap` of the Dedup Map at a key (empty when the key is absent). -/
def keymapAt (st : ProxyLruCache) (key : String) : List (String × String) :=
  ((hdAt st key).map (fun hd => hd.keymap)).getD []

/-- The `content` of the Dedup Map at a key (empty when the key is absent). -/
def contentAt (st : ProxyLruCache) (key : String) : List (String × Option Entry) :=
  ((hdAt st key).map (fun hd => hd.content)).getD []

/-- The truthy cached value a request with that outer key and sub-key
would see (the read path of the critical section, without its
reorder side effect). -/
def hitView (st : ProxyLruCache) (key subkey : String) : Option Entry :=
  match hdAt st key with
  | none => none
  | some hd =>
    match hdGetitem hd subkey with
    | .found (some e) => some e
    | _ => none

/-- The fetch a table-path or connection-path miss performs. -/
def missFetch (server : Upstream) (p : HRParams) (path qs : String) (app : App) : FetchRes :=
  if p.usetable then fetch_tuple server path (expandedQS p.query2 p.accesstoken app)
  else fetch_tuple server path qs

/-- Key and value of the node at an address. -/
def nodeKV {K V : Type} (ns : NodeStore K V) (j : Nat) : Option (K × V) :=
  (nlookup ns j).map (fun n => (n.key, n.value))

/-- Well-formedness of the allocation counter: every allocated node
address is below `nextId` (true of every state the code builds, since
addresses model object identities). -/
def lruWF {K V : Type} (c : LRU K V) : Bool :=
  c.nodes.all (fun p => p.1 < c.nextId)

/-- Is this header a Content-Length header (case-insensitively)? -/
def noCL (hs : List (String × String)) : Bool :=
  hs.all (fun h => !(headerIsCL h))

def countCL (hs : List (String × String)) : Nat :=
  (hs.filter headerIsCL).length

/-- The C5 entry invariant: direct-user (table) entries carry no
Content-Length header; raw-body entries carry at most the one the
upstream sent. -/
def entryOK (e : Entry) : Bool :=
  match e.payload with
  | .table _ => noCL e.headers
  | .body _ => decide (countCL e.headers ≤ 1)

def hdOK (hd : CacheHD) : Bool :=
  hd.content.all (fun p =>
    match p.2 with
    | some e => entryOK e
    | none => true)

/-- The C5 cache invariant, over every Dedup Map object in the node
store. -/
def cacheOK (st : ProxyLruCache) : Bool :=
  st.cache.nodes.all (fun p => hdOK p.2.value)

/-- At most one Content-Length header per upstream response: `httplib`
coalesces repeated response headers into a single entry, so `getheaders()`
never yields two Content-Length pairs. -/
def upstreamCL1 (server : Upstream) : Prop :=
  ∀ m p q, countCL (server m p q).headers ≤ 1

/-! ## Claim C1: the end-to-end direct-user scenario -/
/-- The configuration of the C1 scenario: one app `42` whitelisting
`name` and `about`. -/
def c1Config : List AppConfig :=
  [⟨"42", none, some "sec", none, none, some ["name", "about"], none⟩]

/-- The registry `apps.init` builds from `c1Config` (app `42` plus the
synthesized default). -/
def c1Apps : Apps := (appsInit c1Config).getD []

/-- The scenario upstream: answers the expanded fetch (fields replaced by
the app's full good-field set, access token restored) with `200` and the
three-field body; anything else gets a 404. -/
def c1Upstream : Upstream := fun method path qs =>
  if method == "GET" && path == "u1" && qs == "fields=name%2Cabout&access_token=42%7Cs-u1%7Ct" then
    ⟨200, "OK", [("Content-Type", "text/javascript"), ("Content-Length", "40")],
      "\x7b\"name\":\"X\",\"about\":\"Y\",\"_internal\":\"Z\"\x7d"⟩
  else ⟨404, "Not Found", [("Content-Type", "text/plain")], "bad"⟩

def c1Env : Env := ⟨"/u1", "access_token=42|s-u1|t&fields=name", "GET"⟩

/-- The full handling of `GET /u1?access_token=42|s-u1|t&fields=name`. -/
def c1Run : Option (IterResult × Option ProxyLruCache × Apps) :=
  iterHandler c1Upstream (fun s => s) c1Env c1Apps (some (cacheNew 10000))

/-- The outer LRU keys after the request. -/
def c1OuterKeys : Option (List String) :=
  c1Run.bind (fun r => r.2.1.map (fun st => lruKeys st.cache))

/-- The sub-keys of the Dedup Map, provided the outer LRU holds exactly
one entry. -/
def c1SubKeys : Option (List String) :=
  c1Run.bind (fun r => r.2.1.bind (fun st =>
    match st.cache.index with
    | [(_, i)] => (nlookup st.cache.nodes i).map (fun nd => nd.value.keymap.map Prod.fst)
    | _ => none))

/-! ## Claims C2 and C3: the LRU bugs -/
def c2Ops : List (LruOp String Nat) :=
  [.put "a" 0, .put "b" 0, .put "c" 0, .get "b", .put "d" 0]

/-! ## Claim C4: what the stored field table contains -/
def c4App : App := appFromConfig ⟨"a", none, none, none, none, some ["name"], none⟩

def c4Upstream : Upstream := fun _ _ _ =>
  ⟨200, "OK", [], "\x7b\"_a\":1,\"b\":2\x7d"⟩

def c4Run : Option (CacheHD × String × List (String × String) × Payload × Int) :=
  fetchtable (fun s => s) c4Upstream [] "u1" (some "tok") c4App (hdNew (Option Entry)) "u1__"

/-- The keys of the field table the miss stored. -/
def c4StoredKeys : Option (List String) :=
  c4Run.bind (fun r =>
    match hdGetitem r.1 "u1__" with
    | .found (some e) =>
      match e.payload with
      | .table t => some (t.map Prod.fst)
      | .body _ => none
    | _ => none)

/-! ## Claim C6: non-200 upstream on a miss -/
def c6App : App := appFromConfig ⟨"42", none, none, none, none, some ["name"], none⟩

def c6Upstream : Upstream := fun _ _ _ =>
  ⟨500, "Server Error", [("Content-Type", "text/plain")], "oops"⟩

def c6Query : Query := [("access_token", QVal.strs ["42|s-u1|t"])]

def c6Run : Option (ProxyLruCache × HResp) :=
  handle_request (fun s => s) c6Upstream (cacheNew 10000) c6Query "u1" "qs" c6App

/-- The concrete parameters `hr_params` extracts for the C6 scenario. -/
def c6P : HRParams := ⟨some "42|s-u1|t", "42", "u1", true, none, [], "u1__42", "u1__"⟩

/-- The C6 run's result, with a default that is never reached. -/
def c6Res : ProxyLruCache × HResp :=
  c6Run.getD (cacheNew 10000, ("", [], Payload.body ""))

/-- A 200 upstream that sends exactly one Content-Length header (used to
instantiate the C5 invariant theorem). -/
def c5wUp : Upstream := fun _ _ _ =>
  ⟨200, "OK", [("Content-Length", "2")], "\x7b\x7d"⟩

/-- A concrete direct-user miss against `c5wUp`, with a default that is
never reached. -/
def c5wRes : ProxyLruCache × HResp :=
  (handle_request (fun s => s) c5wUp (cacheNew 10) c6Query "u1" "qs" c6App).getD
    (cacheNew 10, ("", [], Payload.body ""))

/-! ## Node-shape lemmas: pointer surgery never touches keys or values -/
/-- Addresses, keys and values of a node store, pointer fields erased. -/
def nodesShape {K V : Type} (ns : NodeStore K V) : List (Nat × K × V) :=
  ns.map (fun p => (p.1, p.2.key, p.2.value))

/-! ## Node-store invariant transport -/
/-- The C5 invariant over a bare node store. -/
def nodesOK (ns : NodeStore String CacheHD) : Bool :=
  ns.all (fun p => hdOK p.2.value)

/-- The entry a fresh table-path store records. -/
def storedEntryOf (server : Upstream) (query : Query) (path : String)
    (tok : Option String) (app : App) (kvs : List (String × Json)) : Entry :=
  ⟨(fetch_tuple server path (expandedQS query tok app)).statusline,
   (fetch_tuple server path (expandedQS query tok app)).headers, .table kvs⟩

theorem alookup_mem {α β : Type} [DecidableEq α] {l : List (α × β)} {k : α} {v : β}
    (h : alookup l k = some v) : (k, v) ∈ l := by
  induction l with
  | nil => simp [alookup] at h
  | cons p t ih =>
    rcases p with ⟨k0, v0⟩
    rw [alookup] at h
    by_cases hk : k0 = k
    · subst hk
      rw [if_pos rfl] at h
      injection h with h
      subst h
      exact List.mem_cons_self _ _
    · rw [if_neg hk] at h
      exact List.mem_cons_of_mem _ (ih h)

theorem alookup_aset_self {α β : Type} [DecidableEq α] (l : List (α × β)) (k : α) (v : β) :
    alookup (aset l k v) k = some v := by
  induction l with
  | nil => simp [aset, alookup]
  | cons p t ih =>
    rcases p with ⟨k0, v0⟩
    rw [aset]
    by_cases hk : k0 = k
    · rw [if_pos hk, alookup, if_pos rfl]
    · rw [if_neg hk, alookup, if_neg hk, ih]

theorem alookup_aset_ne {α β : Type} [DecidableEq α] (l : List (α × β)) (k k' : α) (v : β)
    (h : k' ≠ k) : alookup (aset l k v) k' = alookup l k' := by
  induction l with
  | nil => simp [aset, alookup, Ne.symm h]
  | cons p t ih =>
    rcases p with ⟨k0, v0⟩
    by_cases hk : k0 = k
    · subst hk
      simp [aset, alookup, Ne.symm h]
    · simp only [aset, if_neg hk, alookup]
      by_cases hk' : k0 = k'
      · simp [hk']
      · simp [hk', ih]

/-- Claim C1, counterexample: the request is served from the cache and the
single outer LRU entry is keyed `"u1__42"`, not `"/u1__42"` as the claim
states — `__iter__` strips the leading slash from `PATH_INFO` before the
cache computes its key. -/
theorem fbproxy_c1_counterexample :
    c1OuterKeys = some ["u1__42"] ∧ "/u1__42" ∉ ["u1__42"] :=
  ⟨rfl, by decide⟩

/-- Claim C1, amended: handling the scenario request returns status line
`200 OK` with the body `{"name": "X"}` (the JSON projection to the
requested field) and Content-Length stripped, and afterwards the cache
holds exactly one outer entry, keyed `"u1__42"`, whose Dedup Map holds
exactly the sub-key `"u1__"`. -/
theorem fbproxy_c1_amended :
    appsInit c1Config = some c1Apps
    ∧ c1Run.map (fun r => r.1)
        = some (.cached ("200 OK", [("Content-Type", "text/javascript")],
            .body "\x7b\"name\": \"X\"\x7d"))
    ∧ c1OuterKeys = some ["u1__42"]
    ∧ c1SubKeys = some ["u1__"] :=
  ⟨rfl, rfl, rfl, rfl⟩

/-- Claim C2, code bug: after `put a, put b, put c` the capacity-2 LRU
holds `{b, c}` as claimed, but `get b` fails to update `head`/`tail`
(`__getitem__` relinks the node without assigning `self.head`), so
`put d` evicts `b` and the LRU ends as `{c, d}`, not the claimed
`{b, d}`. -/
theorem fbproxy_c2_code_bug_eval :
    (runLruOps (lruNew String Nat 2) [.put "a" 0, .put "b" 0, .put "c" 0]).map lruKeys
        = some ["b", "c"]
    ∧ (runLruOps (lruNew String Nat 2) c2Ops).map lruKeys = some ["c", "d"]
    ∧ (["c", "d"] : List String) ≠ ["b", "d"] :=
  ⟨rfl, rfl, by decide⟩

/-- Claim C3, code bug: the operation sequence of C2 leaves `tail = None`
while two entries remain, so the next insertion's eviction loop
dereferences `None` (`node.key` on `None`: `AttributeError`) — the
operations do not all complete without error. -/
theorem fbproxy_c3_code_bug_eval :
    runLruOps (lruNew String Nat 2)
      [.put "a" 0, .put "b" 0, .put "c" 0, .get "b", .put "d" 0, .put "e" 0] = none :=
  rfl

/-- Claim C4, counterexample: a stored field table keeps the keys
beginning with `_` — `_response_to_table` copies every key of the parsed
object; underscore filtering happens only later, in `get_response`, when
no fields are requested. -/
theorem fbproxy_c4_counterexample :
    c4StoredKeys = some ["_a", "b"]
    ∧ "_a".toList.headD ' ' = '_'
    ∧ (["_a", "b"] : List String) ≠ ["b"] :=
  ⟨rfl, rfl, by decide⟩

/-- Claim C6, counterexample: on a non-200 miss the upstream response is
propagated unchanged and nothing is stored in the Dedup Map, but the
outer LRU is not left as it was: the empty Dedup Map installed before
the fetch stays behind under the request's outer key. -/
theorem fbproxy_c6_counterexample :
    lruKeys (cacheNew 10000).cache = []
    ∧ c6Run.map (fun r => (r.2.1, r.2.2.2, lruKeys r.1.cache, keymapAt r.1 "u1__42"))
        = some ("500 Server Error", .body "oops", ["u1__42"], [])
    ∧ (["u1__42"] : List String) ≠ [] :=
  ⟨rfl, rfl, by decide⟩

/-! ## Claim C7: the Dedup Map put -/
/-- One `__setitem__` preserves the keymap-into-content invariant. -/
theorem hdInv_setitem {V : Type} (sha1 : String → String) {d : HashedDictionary V}
    (hi : hdInv d) (k : String) (v : V) (raw : String) :
    hdInv (hdSetitem sha1 d k v raw) := by
  intro k' h' hk'
  simp only [hdSetitem] at hk' ⊢
  by_cases hc : acontains d.content (sha1 raw)
  · rw [if_pos hc] at hk' ⊢
    simp only at hk' ⊢
    by_cases hkk : k' = k
    · subst hkk
      rw [alookup_aset_self] at hk'
      injection hk' with hh
      subst hh
      exact Option.isSome_iff_exists.mp hc
    · rw [alookup_aset_ne _ _ _ _ hkk] at hk'
      exact hi k' h' hk'
  · rw [if_neg hc] at hk' ⊢
    simp only at hk' ⊢
    by_cases hkk : k' = k
    · subst hkk
      rw [alookup_aset_self] at hk'
      injection hk' with hh
      subst hh
      exact ⟨v, alookup_aset_self ..⟩
    · rw [alookup_aset_ne _ _ _ _ hkk] at hk'
      by_cases hhh : h' = sha1 raw
      · subst hhh
        exact ⟨v, alookup_aset_self ..⟩
      · obtain ⟨w, hw⟩ := hi k' h' hk'
        exact ⟨w, by rw [alookup_aset_ne _ _ _ _ hhh]; exact hw⟩

/-- The invariant is preserved along any sequence of puts. -/
theorem hdInv_runHdPuts {V : Type} (sha1 : String → String) :
    ∀ (ops : List (String × V × String)) (d : HashedDictionary V),
      hdInv d → hdInv (runHdPuts sha1 d ops)
  | [], _, hi => hi
  | (k, v, raw) :: t, _, hi =>
    hdInv_runHdPuts sha1 t _ (hdInv_setitem sha1 hi k v raw)

/-- Claim C7: after `put(sub_key, (stored_value, raw))` the keymap maps
the sub-key to the hash of `raw`, the content at that hash is the value
supplied by the first put with that hash (a later put's value is
discarded), and along any sequence of puts every hash recorded in the
keymap has a content entry. -/
theorem fbproxy_c7_dedup_put (V : Type) (sha1 : String → String) (d : HashedDictionary V)
    (k : String) (v : V) (raw : String) :
    (alookup (hdSetitem sha1 d k v raw).keymap k = some (sha1 raw)
      ∧ alookup (hdSetitem sha1 d k v raw).content (sha1 raw)
          = some ((alookup d.content (sha1 raw)).getD v))
    ∧ (hdInv d → ∀ ops, hdInv (runHdPuts sha1 d ops))
    ∧ hdInv (hdNew V) := by
  refine ⟨⟨?_, ?_⟩, ?_, ?_⟩
  · simp only [hdSetitem]
    by_cases hc : acontains d.content (sha1 raw)
    · rw [if_pos hc]
      exact alookup_aset_self ..
    · rw [if_neg hc]
      exact alookup_aset_self ..
  · simp only [hdSetitem]
    by_cases hc : acontains d.content (sha1 raw)
    · rw [if_pos hc]
      obtain ⟨w, hw⟩ := Option.isSome_iff_exists.mp hc
      simp only [hw, Option.getD_some]
    · rw [if_neg hc]
      have hn : alookup d.content (sha1 raw) = none :=
        Option.not_isSome_iff_eq_none.mp (by simpa [acontains] using hc)
      simp only [hn, Option.getD_none]
      exact alookup_aset_self ..
  · intro hi ops
    exact hdInv_runHdPuts sha1 ops d hi
  · intro k0 h0 hk0
    simp [hdNew, alookup] at hk0

/-- Witness for C7 at a concrete dictionary and put sequence. -/
theorem fbproxy_c7_dedup_put_witness :
    hdInv (runHdPuts (fun s => s) (hdNew Nat) [("k", 5, "raw"), ("k2", 7, "raw")]) :=
  (fbproxy_c7_dedup_put Nat (fun s => s) (hdNew Nat) "x" 0 "y").2.1
    (by intro k h hk; simp [hdNew, alookup] at hk)
    [("k", 5, "raw"), ("k2", 7, "raw")]

/-! ## Claim C8: totality of `_response_to_table` -/
/-- Claim C8, counterexample: `"[1]"` parses as JSON (no `ValueError`),
but `_response_to_table` then calls `.iteritems()` on a list and raises
an uncaught `AttributeError` instead of returning a table. -/
theorem fbproxy_c8_counterexample :
    jsonLoads "[1]" = some (Json.arr [Json.num 1]) ∧ response_to_table "[1]" = none :=
  ⟨rfl, rfl⟩

/-- Claim C8, amended: `_response_to_table` returns a table exactly when
the body fails to parse (empty table — the `ValueError` is swallowed) or
parses to a JSON object (that object's pairs); a body parsing to any
other JSON value raises an uncaught `AttributeError`. -/
theorem fbproxy_c8_amended (body : String) :
    ((response_to_table body).isSome = true ↔
      jsonLoads body = none ∨ ∃ kvs, jsonLoads body = some (.obj kvs))
    ∧ (jsonLoads body = none → response_to_table body = some []) := by
  unfold response_to_table
  cases h : jsonLoads body with
  | none => simp
  | some j => cases j <;> simp

/-- Witness for C8 at a body that is not JSON. -/
theorem fbproxy_c8_amended_witness : response_to_table "nope" = some [] :=
  (fbproxy_c8_amended "nope").2 rfl

/-! ## Claim C9: the subscription handshake -/
/-- Claim C9, counterexample: a handshake presenting exactly the
registered verification token (`randtoken = 301`, echoed as the string
`"301"`) is *not* rejected with 403 — the code compares the query string
against the integer `randtoken`, which in Python is always false — so
the challenge is echoed with 200. -/
theorem fbproxy_c9_counterexample :
    handle_validate "hub.mode=subscribe&hub.verify_token=301&hub.challenge=abc" 301
      = some (RtResp.success "abc")
    ∧ handle_validate "hub.mode=subscribe&hub.verify_token=301&hub.challenge=abc" 301
      ≠ some RtResp.forbidden :=
  ⟨rfl, by decide⟩

/-- Claim C9, amended: for a `hub.mode=subscribe` handshake the handler
responds 403 exactly when `hub.verify_token` is missing (the equality
test against the integer token never fires); otherwise 400 when
`hub.challenge` is missing, and 200 echoing the challenge when
present. -/
theorem fbproxy_c9_amended (qs : String) (rt : Int)
    (hmode : (alookup (parse_qs qs) "hub.mode").bind List.head? = some "subscribe") :
    (alookup (parse_qs qs) "hub.verify_token" = none →
      handle_validate qs rt = some .forbidden)
    ∧ (∀ vt, (alookup (parse_qs qs) "hub.verify_token").bind List.head? = some vt →
        (alookup (parse_qs qs) "hub.challenge" = none →
          handle_validate qs rt = some (.badRequest "Missing challenge"))
        ∧ (∀ ch, (alookup (parse_qs qs) "hub.challenge").bind List.head? = some ch →
            handle_validate qs rt = some (.success ch))) := by
  obtain ⟨vsm, hvm, hvh⟩ : ∃ vs, alookup (parse_qs qs) "hub.mode" = some vs
      ∧ vs.head? = some "subscribe" := by
    cases h : alookup (parse_qs qs) "hub.mode" with
    | none => rw [h] at hmode; simp at hmode
    | some vs => rw [h] at hmode; exact ⟨vs, rfl, hmode⟩
  constructor
  · intro hvt
    simp [handle_validate, acontains, hvm, hvh, hvt]
  · intro vt hvt
    obtain ⟨vsv, hv1, hv2⟩ : ∃ vs, alookup (parse_qs qs) "hub.verify_token" = some vs
        ∧ vs.head? = some vt := by
      cases h : alookup (parse_qs qs) "hub.verify_token" with
      | none => rw [h] at hvt; simp at hvt
      | some vs => rw [h] at hvt; exact ⟨vs, rfl, hvt⟩
    constructor
    · intro hch
      simp [handle_validate, acontains, hvm, hvh, hv1, hv2, hch, pyStrEqInt]
    · intro ch hch
      obtain ⟨vsc, hc1, hc2⟩ : ∃ vs, alookup (parse_qs qs) "hub.challenge" = some vs
          ∧ vs.head? = some ch := by
        cases h : alookup (parse_qs qs) "hub.challenge" with
        | none => rw [h] at hch; simp at hch
        | some vs => rw [h] at hch; exact ⟨vs, rfl, hch⟩
      simp [handle_validate, acontains, hvm, hvh, hv1, hv2, hc1, hc2, pyStrEqInt]

/-- Witness for C9 at a concrete handshake with the token present. -/
theorem fbproxy_c9_amended_witness :
    handle_validate "hub.mode=subscribe&hub.verify_token=7&hub.challenge=ch" 7
      = some (RtResp.success "ch") :=
  ((fbproxy_c9_amended "hub.mode=subscribe&hub.verify_token=7&hub.challenge=ch" 7 rfl).2
    "7" rfl).2 "ch" rfl

/-! ## Claim C10: `check_user` on one's own data -/
/-- An added element is a member. -/
theorem setAdd_mem_self (l : List String) (s : String) : s ∈ setAdd l s := by
  unfold setAdd
  by_cases h : l.contains s
  · rw [if_pos h]; simpa using h
  · rw [if_neg h]; simp

/-- Claim C10: `check_user(u, u, default)` always returns `True`: the
requestor is added to the user set before the requestee is looked up, so
a request by a user for that same user's data passes the known-user
check. -/
theorem fbproxy_c10_check_user_self (a : App) (u : String)
    (dflt : Option App) (dfltIsSelf : Bool) :
    (App.check_user a u u dflt dfltIsSelf).1 = true := by
  rcases dflt with _ | d <;> cases dfltIsSelf <;>
    simp [App.check_user, setAdd_mem_self]

/-! ## Association-list and node-store lemmas -/
theorem alookup_append {α β : Type} [DecidableEq α] (l1 l2 : List (α × β)) (k : α) :
    alookup (l1 ++ l2) k =
      (match alookup l1 k with
        | some v => some v
        | none => alookup l2 k) := by
  induction l1 with
  | nil => simp [alookup]
  | cons p t ih =>
    rcases p with ⟨k0, v0⟩
    by_cases hk : k0 = k
    · simp [alookup, hk]
    · simp only [List.cons_append, alookup, if_neg hk]
      exact ih

theorem aset_eq_append {α β : Type} [DecidableEq α] {l : List (α × β)} {k : α} (v : β)
    (h : alookup l k = none) : aset l k v = l ++ [(k, v)] := by
  induction l with
  | nil => simp [aset]
  | cons p t ih =>
    rcases p with ⟨k0, v0⟩
    rw [alookup] at h
    by_cases hk : k0 = k
    · rw [if_pos hk] at h; exact absurd h (by simp)
    · rw [if_neg hk] at h
      rw [aset, if_neg hk, ih h]
      simp

theorem alookup_aerase_self {α β : Type} [DecidableEq α] (l : List (α × β)) (k : α) :
    alookup (aerase l k) k = none := by
  induction l with
  | nil => simp [aerase, alookup]
  | cons p t ih =>
    rcases p with ⟨k0, v0⟩
    rw [aerase]
    by_cases hk : k0 = k
    · rw [if_pos hk]; exact ih
    · rw [if_neg hk, alookup, if_neg hk]; exact ih

theorem alookup_aerase_ne {α β : Type} [DecidableEq α] (l : List (α × β)) (k0 k : α)
    (h : k ≠ k0) : alookup (aerase l k0) k = alookup l k := by
  induction l with
  | nil => simp [aerase, alookup]
  | cons p t ih =>
    rcases p with ⟨kc, vc⟩
    rw [aerase]
    by_cases hk : kc = k0
    · rw [if_pos hk, alookup, if_neg (by rw [hk]; exact Ne.symm h)]
      exact ih
    · rw [if_neg hk, alookup, alookup, ih]

theorem nlookup_nmodify {K V : Type} (ns : NodeStore K V) (i : Nat)
    (f : Node K V → Node K V) (j : Nat) :
    nlookup (nmodify ns i f) j
      = (nlookup ns j).map (fun n => if j = i then f n else n) := by
  induction ns with
  | nil => simp [nlookup, nmodify, alookup]
  | cons p t ih =>
    rcases p with ⟨i0, n0⟩
    simp only [nmodify, List.map_cons] at ih ⊢
    by_cases h0 : i0 = i
    · subst h0
      rw [if_pos rfl]
      by_cases hj : i0 = j
      · subst hj
        rw [nlookup, alookup, if_pos rfl, nlookup, alookup, if_pos rfl]
        simp
      · rw [nlookup, alookup, if_neg hj, nlookup, alookup, if_neg hj]
        exact ih
    · rw [if_neg h0]
      by_cases hj : i0 = j
      · subst hj
        rw [nlookup, alookup, if_pos rfl, nlookup, alookup, if_pos rfl]
        simp [fun hh : i0 = i => h0 hh]
      · rw [nlookup, alookup, if_neg hj, nlookup, alookup, if_neg hj]
        exact ih

theorem nodeKV_setPrev {K V : Type} (ns : NodeStore K V) (i : Nat) (x : Option Nat) (j : Nat) :
    nodeKV (setPrev ns i x) j = nodeKV ns j := by
  unfold nodeKV setPrev
  rw [nlookup_nmodify]
  cases nlookup ns j with
  | none => rfl
  | some n => by_cases hj : j = i <;> simp [hj]

theorem nodeKV_setSucc {K V : Type} (ns : NodeStore K V) (i : Nat) (x : Option Nat) (j : Nat) :
    nodeKV (setSucc ns i x) j = nodeKV ns j := by
  unfold nodeKV setSucc
  rw [nlookup_nmodify]
  cases nlookup ns j with
  | none => rfl
  | some n => by_cases hj : j = i <;> simp [hj]

theorem nodeKV_setVal_ne {K V : Type} (ns : NodeStore K V) (i : Nat) (v : V) (j : Nat)
    (h : j ≠ i) : nodeKV (setVal ns i v) j = nodeKV ns j := by
  unfold nodeKV setVal
  rw [nlookup_nmodify]
  cases nlookup ns j with
  | none => rfl
  | some n => simp [h]

theorem nodeKV_setVal_self {K V : Type} (ns : NodeStore K V) (i : Nat) (v : V) :
    nodeKV (setVal ns i v) i = (nodeKV ns i).map (fun p => (p.1, v)) := by
  unfold nodeKV setVal
  rw [nlookup_nmodify]
  cases nlookup ns i with
  | none => rfl
  | some n => simp

theorem nodeKV_nodeRemove {K V : Type} {ns ns' : NodeStore K V} {i : Nat}
    (h : nodeRemove ns i = some ns') (j : Nat) : nodeKV ns' j = nodeKV ns j := by
  unfold nodeRemove at h
  cases hn : nlookup ns i with
  | none => rw [hn] at h; exact absurd h (by simp)
  | some n =>
    rw [hn] at h
    simp only at h
    cases hp : n.prev <;> cases hs : n.successor <;>
      rw [hp, hs] at h <;> injection h with h <;> subst h <;>
      simp [nodeKV_setSucc, nodeKV_setPrev]

theorem nodeKV_nodeSetnext {K V : Type} {ns ns' : NodeStore K V} {i : Nat} {x : Option Nat}
    (h : nodeSetnext ns i x = some ns') (j : Nat) : nodeKV ns' j = nodeKV ns j := by
  unfold nodeSetnext at h
  cases x with
  | none =>
    simp only at h
    injection h with h
    subst h
    simp [nodeKV_setPrev, nodeKV_setSucc]
  | some m =>
    simp only at h
    cases hm : nlookup (setSucc ns i (some m)) m with
    | none => simp only [hm] at h; exact absurd h (by simp)
    | some mn =>
      simp only [hm] at h
      cases hself : nlookup (setPrev (setPrev (setSucc ns i (some m)) i mn.prev) m (some i)) i with
      | none => simp only [hself] at h; exact absurd h (by simp)
      | some selfn =>
        simp only [hself] at h
        cases hsp : selfn.prev with
        | none =>
          simp only [hsp] at h
          injection h with h
          subst h
          simp [nodeKV_setPrev, nodeKV_setSucc]
        | some p =>
          simp only [hsp] at h
          injection h with h
          subst h
          simp [nodeKV_setSucc, nodeKV_setPrev]

theorem nodesShape_nmodify {K V : Type} (ns : NodeStore K V) (i : Nat)
    (f : Node K V → Node K V) (hk : ∀ n, (f n).key = n.key)
    (hv : ∀ n, (f n).value = n.value) :
    nodesShape (nmodify ns i f) = nodesShape ns := by
  induction ns with
  | nil => rfl
  | cons p t ih =>
    rcases p with ⟨i0, n0⟩
    simp only [nmodify, List.map_cons] at ih ⊢
    by_cases h0 : i0 = i
    · rw [if_pos h0]
      simp only [nodesShape, List.map_cons] at ih ⊢
      rw [hk n0, hv n0, ih]
    · rw [if_neg h0]
      simp only [nodesShape, List.map_cons] at ih ⊢
      rw [ih]

theorem nodesShape_setPrev {K V : Type} (ns : NodeStore K V) (i : Nat) (x : Option Nat) :
    nodesShape (setPrev ns i x) = nodesShape ns :=
  nodesShape_nmodify ns i _ (fun _ => rfl) (fun _ => rfl)

theorem nodesShape_setSucc {K V : Type} (ns : NodeStore K V) (i : Nat) (x : Option Nat) :
    nodesShape (setSucc ns i x) = nodesShape ns :=
  nodesShape_nmodify ns i _ (fun _ => rfl) (fun _ => rfl)

theorem nodesShape_nodeRemove {K V : Type} {ns ns' : NodeStore K V} {i : Nat}
    (h : nodeRemove ns i = some ns') : nodesShape ns' = nodesShape ns := by
  unfold nodeRemove at h
  cases hn : nlookup ns i with
  | none => rw [hn] at h; exact absurd h (by simp)
  | some n =>
    rw [hn] at h
    simp only at h
    cases hp : n.prev <;> cases hs : n.successor <;>
      rw [hp, hs] at h <;> injection h with h <;> subst h <;>
      simp [nodesShape_setSucc, nodesShape_setPrev]

theorem nodesShape_nodeSetnext {K V : Type} {ns ns' : NodeStore K V} {i : Nat} {x : Option Nat}
    (h : nodeSetnext ns i x = some ns') : nodesShape ns' = nodesShape ns := by
  unfold nodeSetnext at h
  cases x with
  | none =>
    simp only at h
    injection h with h
    subst h
    simp [nodesShape_setPrev, nodesShape_setSucc]
  | some m =>
    simp only at h
    cases hm : nlookup (setSucc ns i (some m)) m with
    | none => simp only [hm] at h; exact absurd h (by simp)
    | some mn =>
      simp only [hm] at h
      cases hself : nlookup (setPrev (setPrev (setSucc ns i (some m)) i mn.prev) m (some i)) i with
      | none => simp only [hself] at h; exact absurd h (by simp)
      | some selfn =>
        simp only [hself] at h
        cases hsp : selfn.prev with
        | none =>
          simp only [hsp] at h
          injection h with h
          subst h
          simp [nodesShape_setPrev, nodesShape_setSucc]
        | some p =>
          simp only [hsp] at h
          injection h with h
          subst h
          simp [nodesShape_setSucc, nodesShape_setPrev]

/-- Equal shapes give equal key-value views at every address. -/
theorem nodeKV_congr {K V : Type} {a b : NodeStore K V}
    (h : nodesShape a = nodesShape b) (j : Nat) : nodeKV a j = nodeKV b j := by
  induction a generalizing b with
  | nil =>
    cases b with
    | nil => rfl
    | cons q u => exact absurd h (by simp [nodesShape])
  | cons p t ih =>
    cases b with
    | nil => exact absurd h (by simp [nodesShape])
    | cons q u =>
      rcases p with ⟨i0, n0⟩
      rcases q with ⟨i1, n1⟩
      simp only [nodesShape, List.map_cons, List.cons.injEq] at h
      obtain ⟨h1, h2⟩ := h
      obtain ⟨hi, hk, hv⟩ : i0 = i1 ∧ n0.key = n1.key ∧ n0.value = n1.value := by
        refine ⟨congrArg Prod.fst h1, ?_, ?_⟩
        · have := congrArg (fun x => x.2.1) h1; simpa using this
        · have := congrArg (fun x => x.2.2) h1; simpa using this
      subst hi
      unfold nodeKV nlookup alookup
      by_cases hj : i0 = j
      · simp [hj, hk, hv]
      · simpa [hj] using ih (show nodesShape t = nodesShape u from h2)

/-! ## LRU operation specifications -/
theorem checksizeLoop_spec {K V : Type} [DecidableEq K] :
    ∀ (fuel : Nat) (c c' : LRU K V), checksizeLoop fuel c = some c' →
      c'.size = c.size ∧ c'.nextId = c.nextId
      ∧ nodesShape c'.nodes = nodesShape c.nodes
      ∧ (∀ k i, alookup c'.index k = some i → alookup c.index k = some i)
  | 0, c, c', h => by
    injection h with h
    subst h
    exact ⟨rfl, rfl, rfl, fun _ _ hh => hh⟩
  | fuel + 1, c, c', h => by
    rw [checksizeLoop] at h
    by_cases hgt : c.count > c.size
    · rw [if_pos hgt] at h
      cases ht : c.tail with
      | none => rw [ht] at h; exact absurd h (by simp)
      | some i =>
        rw [ht] at h
        cases hn : nlookup c.nodes i with
        | none => simp only [hn] at h; exact Option.noConfusion h
        | some n =>
          simp only [hn] at h
          by_cases hc : acontains c.index n.key
          · rw [if_pos hc] at h
            cases hr : nodeRemove c.nodes i with
            | none => simp only [hr] at h; exact Option.noConfusion h
            | some ns1 =>
              simp only [hr] at h
              obtain ⟨e1, e2, e3, e4⟩ := checksizeLoop_spec fuel _ _ h
              refine ⟨e1, e2, ?_, ?_⟩
              · rw [e3]
                simpa using nodesShape_nodeRemove hr
              · intro k0 i0 hk0
                have := e4 k0 i0 hk0
                simp only at this
                by_cases hkk : k0 = n.key
                · rw [hkk, alookup_aerase_self] at this
                  exact absurd this (by simp)
                · rwa [alookup_aerase_ne _ _ _ hkk] at this
          · rw [if_neg hc] at h
            exact absurd h (by simp)
    · rw [if_neg hgt] at h
      injection h with h
      subst h
      exact ⟨rfl, rfl, rfl, fun _ _ hh => hh⟩

/-- With the size not exceeded, `checksize` is the identity (the pruning
loop gets zero fuel and exits at once). -/
theorem lruChecksize_noop {K V : Type} [DecidableEq K] (c : LRU K V)
    (h : c.count ≤ c.size) : lruChecksize c = some c := by
  unfold lruChecksize
  rw [show (c.count - c.size).toNat = 0 from Int.toNat_of_nonpos (by omega)]
  rfl

theorem lruGetitem_spec {K V : Type} [DecidableEq K] {c c1 : LRU K V} {k : K} {v : Option V}
    (h : lruGetitem c k = some (c1, v)) :
    c1.index = c.index ∧ c1.size = c.size ∧ c1.count = c.count ∧ c1.nextId = c.nextId
    ∧ nodesShape c1.nodes = nodesShape c.nodes
    ∧ v = (alookup c.index k).bind (fun i => (nodeKV c.nodes i).map Prod.snd) := by
  unfold lruGetitem at h
  cases hi : alookup c.index k with
  | none =>
    simp only [hi] at h
    injection h with h
    have h1 : c = c1 := congrArg Prod.fst h
    have h2 : (none : Option V) = v := congrArg Prod.snd h
    subst h1
    subst h2
    exact ⟨rfl, rfl, rfl, rfl, rfl, by simp⟩
  | some i =>
    simp only [hi] at h
    cases hr : nodeRemove c.nodes i with
    | none => simp only [hr] at h; exact Option.noConfusion h
    | some ns1 =>
      simp only [hr] at h
      cases hs : nodeSetnext ns1 i c.head with
      | none => simp only [hs] at h; exact Option.noConfusion h
      | some ns2 =>
        simp only [hs] at h
        cases hn2 : nlookup ns2 i with
        | none => simp only [hn2] at h; exact Option.noConfusion h
        | some n =>
          simp only [hn2] at h
          injection h with h
          have h1 : ({ c with nodes := ns2 } : LRU K V) = c1 := congrArg Prod.fst h
          have h2 : some n.value = v := congrArg Prod.snd h
          subst h1
          subst h2
          have hshape : nodesShape ns2 = nodesShape c.nodes := by
            rw [nodesShape_nodeSetnext hs, nodesShape_nodeRemove hr]
          have hkv : nodeKV c.nodes i = some (n.key, n.value) := by
            rw [← nodeKV_congr hshape i]
            unfold nodeKV
            rw [hn2]
            rfl
          refine ⟨rfl, rfl, rfl, rfl, hshape, ?_⟩
          simp [hkv]

theorem lruSetitem_absent_spec {K V : Type} [DecidableEq K] {c c1 : LRU K V} {k : K} {v : V}
    (habs : alookup c.index k = none) (h : lruSetitem c k v = some c1) :
    nodesShape c1.nodes = nodesShape c.nodes ++ [(c.nextId, k, v)] := by
  unfold lruSetitem at h
  simp only [habs] at h
  cases hs : nodeSetnext (c.nodes ++ [(c.nextId, ⟨k, v, none, none⟩)]) c.nextId c.head with
  | none => simp only [hs] at h; exact Option.noConfusion h
  | some ns1 =>
    simp only [hs] at h
    unfold lruChecksize at h
    have e3 := (checksizeLoop_spec _ _ _ h).2.2.1
    simp only at e3
    rw [e3, nodesShape_nodeSetnext hs]
    simp [nodesShape]

theorem lruSetitem_absent_room_spec {K V : Type} [DecidableEq K] {c c1 : LRU K V}
    {k : K} {v : V}
    (habs : alookup c.index k = none) (hroom : c.count + 1 ≤ c.size)
    (h : lruSetitem c k v = some c1) :
    c1.index = aset c.index k c.nextId
    ∧ nodesShape c1.nodes = nodesShape c.nodes ++ [(c.nextId, k, v)]
    ∧ c1.size = c.size ∧ c1.count = c.count + 1 ∧ c1.nextId = c.nextId + 1 := by
  unfold lruSetitem at h
  simp only [habs] at h
  cases hs : nodeSetnext (c.nodes ++ [(c.nextId, ⟨k, v, none, none⟩)]) c.nextId c.head with
  | none => simp only [hs] at h; exact Option.noConfusion h
  | some ns1 =>
    simp only [hs] at h
    rw [lruChecksize_noop _ (by simpa using hroom)] at h
    injection h with h
    subst h
    refine ⟨rfl, ?_, rfl, rfl, rfl⟩
    simp only
    rw [nodesShape_nodeSetnext hs]
    simp [nodesShape]

theorem lruDelitem_spec {K V : Type} [DecidableEq K] {c c1 : LRU K V} {k : K}
    (h : lruDelitem c k = some c1) :
    c1.size = c.size ∧ nodesShape c1.nodes = nodesShape c.nodes
    ∧ (∀ k' i, alookup c1.index k' = some i → alookup c.index k' = some i) := by
  unfold lruDelitem at h
  cases hi : alookup c.index k with
  | none =>
    simp only [hi] at h
    unfold lruChecksize at h
    obtain ⟨e1, e2, e3, e4⟩ := checksizeLoop_spec _ _ _ h
    exact ⟨e1, e3, e4⟩
  | some i =>
    simp only [hi] at h
    cases hn : nlookup c.nodes i with
    | none => simp only [hn] at h; exact Option.noConfusion h
    | some n =>
      simp only [hn] at h
      cases hr : nodeRemove c.nodes i with
      | none => simp only [hr] at h; exact Option.noConfusion h
      | some ns1 =>
        simp only [hr] at h
        unfold lruChecksize at h
        obtain ⟨e1, e2, e3, e4⟩ := checksizeLoop_spec _ _ _ h
        simp only at e1 e2 e3 e4
        refine ⟨e1, ?_, ?_⟩
        · rw [e3]
          exact nodesShape_nodeRemove hr
        · intro k' i' hk'
          have hthis := e4 k' i' hk'
          by_cases hkk : k' = k
          · rw [hkk, alookup_aerase_self] at hthis
            exact absurd hthis (by simp)
          · rwa [alookup_aerase_ne _ _ _ hkk] at hthis

/-! ## Content-Length counting lemmas -/
theorem countCL_zero_noCL (hs : List (String × String)) (h : countCL hs = 0) :
    noCL hs = true := by
  induction hs with
  | nil => rfl
  | cons x t ih =>
    unfold countCL at h ih
    rw [List.filter_cons] at h
    by_cases hx : headerIsCL x
    · rw [if_pos (by simp [hx])] at h
      simp at h
    · rw [if_neg (by simp [hx])] at h
      unfold noCL at ih ⊢
      rw [List.all_cons]
      simp only [hx, Bool.not_false, Bool.true_and]
      exact ih h

theorem noCL_removeFirstCL (hs : List (String × String)) (h : countCL hs ≤ 1) :
    noCL (removeFirstCL hs) = true := by
  induction hs with
  | nil => rfl
  | cons x t ih =>
    unfold countCL at h ih
    rw [List.filter_cons] at h
    by_cases hx : headerIsCL x
    · rw [if_pos (by simp [hx])] at h
      rw [removeFirstCL, if_pos hx]
      exact countCL_zero_noCL t (by unfold countCL; simpa using h)
    · rw [if_neg (by simp [hx])] at h
      rw [removeFirstCL, if_neg hx]
      unfold noCL at ih ⊢
      rw [List.all_cons]
      simp only [hx, Bool.not_false, Bool.true_and]
      exact ih h

theorem removeFirstCL_countCL_le (hs : List (String × String)) :
    countCL (removeFirstCL hs) ≤ countCL hs := by
  induction hs with
  | nil => exact Nat.le_refl _
  | cons x t ih =>
    unfold countCL at ih ⊢
    rw [removeFirstCL]
    by_cases hx : headerIsCL x
    · rw [if_pos hx, List.filter_cons, if_pos (by simp [hx])]
      simp
    · rw [if_neg hx, List.filter_cons, List.filter_cons,
        if_neg (by simp [hx]), if_neg (by simp [hx])]
      exact ih

theorem noCL_countCL_zero (hs : List (String × String)) (h : noCL hs = true) :
    countCL hs = 0 := by
  induction hs with
  | nil => rfl
  | cons x t ih =>
    unfold noCL at h ih
    rw [List.all_cons] at h
    obtain ⟨h1, h2⟩ := Bool.and_eq_true_iff.mp h
    unfold countCL at ih ⊢
    rw [List.filter_cons, if_neg (by simp at h1 ⊢; exact h1)]
    exact ih h2

theorem entryOK_headers_le (e : Entry) (h : entryOK e = true) : countCL e.headers ≤ 1 := by
  rcases e with ⟨sl, hs, pay⟩
  cases pay with
  | table t =>
    simp only [entryOK] at h
    rw [noCL_countCL_zero hs h]
    omega
  | body s =>
    simp only [entryOK] at h
    exact of_decide_eq_true h

theorem entryOK_strip (e : Entry) (h : entryOK e = true) :
    entryOK (stripEntryCL e) = true := by
  rcases e with ⟨sl, hs, pay⟩
  cases pay with
  | table t =>
    simp only [entryOK, stripEntryCL] at h ⊢
    exact noCL_removeFirstCL hs (by rw [noCL_countCL_zero hs h]; omega)
  | body s =>
    simp only [entryOK, stripEntryCL] at h ⊢
    exact decide_eq_true (le_trans (removeFirstCL_countCL_le hs) (of_decide_eq_true h))

/-! ## Dedup-Map invariant lemmas for C5 -/
theorem alookup_eq_none_not_mem {α β : Type} [DecidableEq α] {l : List (α × β)} {k : α}
    (h : alookup l k = none) : ∀ v, (k, v) ∉ l := by
  induction l with
  | nil => simp
  | cons p t ih =>
    rcases p with ⟨k0, v0⟩
    rw [alookup] at h
    by_cases hk : k0 = k
    · rw [if_pos hk] at h; exact absurd h (by simp)
    · rw [if_neg hk] at h
      intro v hv
      rcases List.mem_cons.mp hv with heq | hmem
      · exact hk (congrArg Prod.fst heq).symm
      · exact ih h v hmem

theorem hdOK_lookup {hd : CacheHD} {h : String} {e : Entry}
    (hok : hdOK hd = true) (hl : alookup hd.content h = some (some e)) :
    entryOK e = true := by
  have hmem := alookup_mem hl
  have := List.all_eq_true.mp hok (h, some e) hmem
  simpa using this

theorem hdOK_store_strip_fresh (sha1 : String → String) {hd : CacheHD}
    (k sl : String) (hs : List (String × String)) (t : List (String × Json)) (raw : String)
    (hok : hdOK hd = true) (hcl : countCL hs ≤ 1)
    (hfresh : acontains hd.content (sha1 raw) = false) :
    hdOK (hdStripCL (hdSetitem sha1 hd k (some ⟨sl, hs, .table t⟩) raw) k) = true := by
  have hnone : alookup hd.content (sha1 raw) = none := by
    unfold acontains at hfresh
    exact Option.not_isSome_iff_eq_none.mp (by simp [hfresh])
  unfold hdSetitem
  rw [if_neg (by simp [acontains, hnone])]
  unfold hdStripCL
  simp only [alookup_aset_self]
  rw [aset_eq_append _ hnone]
  unfold hdOK
  rw [List.all_eq_true]
  intro p hp
  obtain ⟨q, hq, rfl⟩ := List.mem_map.mp hp
  rcases List.mem_append.mp hq with hq1 | hq2
  · by_cases hqh : q.1 = sha1 raw
    · exfalso
      have hmem : (q.1, q.2) ∈ hd.content := by simpa using hq1
      rw [hqh] at hmem
      exact alookup_eq_none_not_mem hnone q.2 hmem
    · rw [if_neg hqh]
      have := List.all_eq_true.mp hok q hq1
      simpa using this
  · have hq2' : q = (sha1 raw, some (⟨sl, hs, .table t⟩ : Entry)) := by simpa using hq2
    subst hq2'
    rw [if_pos rfl]
    simp only [Option.map_some]
    unfold stripEntryCL entryOK
    exact noCL_removeFirstCL hs hcl

theorem hdOK_store_strip_dup (sha1 : String → String) {hd : CacheHD} (k raw : String)
    (hok : hdOK hd = true)
    (hdup : acontains hd.content (sha1 raw) = true) :
    hdOK (hdStripCL (hdSetitem sha1 hd k none raw) k) = true := by
  unfold hdSetitem
  rw [if_pos hdup]
  unfold hdStripCL
  simp only [alookup_aset_self]
  unfold hdOK
  rw [List.all_eq_true]
  intro p hp
  obtain ⟨q, hq, rfl⟩ := List.mem_map.mp hp
  by_cases hqh : q.1 = sha1 raw
  · rw [if_pos hqh]
    cases hv : q.2 with
    | none => simp
    | some e =>
      simp only [Option.map_some]
      have := List.all_eq_true.mp hok q hq
      rw [hv] at this
      simp only at this
      exact entryOK_strip e this
  · rw [if_neg hqh]
    have := List.all_eq_true.mp hok q hq
    simpa using this

theorem hdOK_setitem_body (sha1 : String → String) {hd : CacheHD}
    (k sl b raw : String) (hs : List (String × String))
    (hok : hdOK hd = true) (hcl : countCL hs ≤ 1) :
    hdOK (hdSetitem sha1 hd k (some ⟨sl, hs, .body b⟩) raw) = true := by
  unfold hdSetitem
  by_cases hc : acontains hd.content (sha1 raw)
  · rw [if_pos hc]
    exact hok
  · rw [if_neg hc]
    have hnone : alookup hd.content (sha1 raw) = none := by
      unfold acontains at hc
      exact Option.not_isSome_iff_eq_none.mp (by simpa using hc)
    unfold hdOK
    rw [aset_eq_append _ hnone, List.all_append]
    refine Bool.and_eq_true_iff.mpr ⟨hok, ?_⟩
    simp only [List.all_cons, List.all_nil, Bool.and_true]
    unfold entryOK
    exact decide_eq_true hcl

theorem nodesOK_eq_shape (ns : NodeStore String CacheHD) :
    nodesOK ns = (nodesShape ns).all (fun q => hdOK q.2.2) := by
  induction ns with
  | nil => rfl
  | cons p t ih =>
    simp only [nodesOK, nodesShape, List.map_cons, List.all_cons] at ih ⊢
    rw [ih]

theorem nodesOK_congr {a b : NodeStore String CacheHD}
    (h : nodesShape a = nodesShape b) : nodesOK a = nodesOK b := by
  rw [nodesOK_eq_shape, nodesOK_eq_shape, h]

theorem nodesShape_append_one {K V : Type} (ns : NodeStore K V) (i : Nat) (nd : Node K V) :
    nodesShape (ns ++ [(i, nd)]) = nodesShape ns ++ [(i, nd.key, nd.value)] := by
  simp [nodesShape]

theorem nodesOK_append_one (ns : NodeStore String CacheHD) (x : Nat × Node String CacheHD) :
    nodesOK (ns ++ [x]) = (nodesOK ns && hdOK x.2.value) := by
  unfold nodesOK
  rw [List.all_append]
  simp

theorem nodesOK_setVal {ns : NodeStore String CacheHD} {i : Nat} {v : CacheHD}
    (h : nodesOK ns = true) (hv : hdOK v = true) : nodesOK (setVal ns i v) = true := by
  unfold nodesOK setVal nmodify
  rw [List.all_eq_true]
  intro x hx
  obtain ⟨p, hp, rfl⟩ := List.mem_map.mp hx
  by_cases h0 : p.1 = i
  · rw [if_pos h0]
    simpa using hv
  · rw [if_neg h0]
    exact List.all_eq_true.mp h p hp

theorem nodesOK_lookup {ns : NodeStore String CacheHD} {j : Nat} {n : Node String CacheHD}
    (h : nodesOK ns = true) (hn : nlookup ns j = some n) : hdOK n.value = true := by
  have hmem := alookup_mem hn
  have := List.all_eq_true.mp h (j, n) hmem
  simpa using this

theorem nodesOK_lruWriteVal {c : LRU String CacheHD} {v : CacheHD} (key : String)
    (h : nodesOK c.nodes = true) (hv : hdOK v = true) :
    nodesOK (lruWriteVal c key v).nodes = true := by
  unfold lruWriteVal
  cases hi : alookup c.index key with
  | none => exact h
  | some i => exact nodesOK_setVal h hv

theorem lruWF_nextId_none {K V : Type} (c : LRU K V) (h : lruWF c = true) :
    nlookup c.nodes c.nextId = none := by
  cases hn : nlookup c.nodes c.nextId with
  | none => rfl
  | some n =>
    have hmem := alookup_mem hn
    have := List.all_eq_true.mp h (c.nextId, n) hmem
    simp at this

theorem nodeKV_append_fresh {K V : Type} (ns : NodeStore K V) (i : Nat) (nd : Node K V)
    (h : nlookup ns i = none) : nodeKV (ns ++ [(i, nd)]) i = some (nd.key, nd.value) := by
  unfold nodeKV
  unfold nlookup at h ⊢
  rw [alookup_append, h]
  simp [alookup]

theorem acontains_false_lookup_none {α β : Type} [DecidableEq α] {l : List (α × β)} {k : α}
    (h : acontains l k = false) : alookup l k = none := by
  cases hl : alookup l k with
  | none => rfl
  | some v =>
    unfold acontains at h
    rw [hl] at h
    simp at h

theorem hdAt_eq (st : ProxyLruCache) (key : String) :
    hdAt st key
      = (alookup st.cache.index key).bind
          (fun i => (nodeKV st.cache.nodes i).map Prod.snd) := by
  unfold hdAt nodeKV
  cases alookup st.cache.index key with
  | none => rfl
  | some i =>
    cases hn : nlookup st.cache.nodes i with
    | none => simp [hn]
    | some n => simp [hn]

/-! ## `hdSetitem` and `_fetchtable` component lemmas -/
theorem hdSetitem_keymap {V : Type} (sha1 : String → String) (d : HashedDictionary V)
    (k : String) (v : V) (raw : String) :
    alookup (hdSetitem sha1 d k v raw).keymap k = some (sha1 raw) := by
  unfold hdSetitem
  by_cases hc : acontains d.content (sha1 raw)
  · rw [if_pos hc]
    exact alookup_aset_self ..
  · rw [if_neg hc]
    exact alookup_aset_self ..

theorem hdSetitem_content_fresh {V : Type} (sha1 : String → String) (d : HashedDictionary V)
    (k : String) (v : V) (raw : String)
    (hnone : alookup d.content (sha1 raw) = none) :
    alookup (hdSetitem sha1 d k v raw).content (sha1 raw) = some v := by
  unfold hdSetitem
  rw [if_neg (by simp [acontains, hnone])]
  exact alookup_aset_self ..

theorem hdSetitem_content_dup {V : Type} (sha1 : String → String) (d : HashedDictionary V)
    (k : String) (v : V) (raw : String)
    (hdup : acontains d.content (sha1 raw) = true) :
    (hdSetitem sha1 d k v raw).content = d.content := by
  unfold hdSetitem
  rw [if_pos hdup]

theorem fetchtableRead_found {hd1 : CacheHD} {key hsh : String} {e : Entry}
    (hk : alookup hd1.keymap key = some hsh)
    (hc : alookup hd1.content hsh = some (some e)) :
    fetchtableRead hd1 key = some (hd1, e.statusline, e.headers, e.payload, 200) := by
  unfold fetchtableRead hdGetitem
  simp only [hk, hc]

/-- On a non-200 expanded fetch, `_fetchtable` passes the raw response
through and stores nothing. -/
theorem fetchtable_non200 (sha1 : String → String) (server : Upstream) (query : Query)
    (path : String) (tok : Option String) (app : App) (hd : CacheHD) (key : String)
    (hstat : (fetch_tuple server path (expandedQS query tok app)).status ≠ 200) :
    fetchtable sha1 server query path tok app hd key
      = some (hd, (fetch_tuple server path (expandedQS query tok app)).statusline,
          (fetch_tuple server path (expandedQS query tok app)).headers,
          .body (fetch_tuple server path (expandedQS query tok app)).body,
          (fetch_tuple server path (expandedQS query tok app)).status) := by
  simp only [fetchtable]
  rw [if_pos hstat]

/-- On a 200 expanded fetch, `_fetchtable` returns status 200, headers
carrying at most one Content-Length, and a Dedup Map whose sub-key entry,
once the caller strips the header list it aliases, satisfies the C5
invariant. -/
theorem fetchtable_200_spec {sha1 : String → String} {server : Upstream} {query : Query}
    {path : String} {tok : Option String} {app : App} {hd : CacheHD} {key : String}
    {hd1 : CacheHD} {sl : String} {hs : List (String × String)} {pay : Payload} {stat : Int}
    (hok : hdOK hd = true) (hcl : upstreamCL1 server)
    (hr200 : (fetch_tuple server path (expandedQS query tok app)).status = 200)
    (h : fetchtable sha1 server query path tok app hd key = some (hd1, sl, hs, pay, stat)) :
    stat = 200 ∧ countCL hs ≤ 1 ∧ hdOK (hdStripCL hd1 key) = true := by
  have hclr : countCL (fetch_tuple server path (expandedQS query tok app)).headers ≤ 1 :=
    hcl "GET" path (expandedQS query tok app)
  simp only [fetchtable] at h
  rw [if_neg (by simp [hr200])] at h
  by_cases hfr : hdContainsHash sha1 hd (fetch_tuple server path (expandedQS query tok app)).body = false
  · rw [if_pos hfr] at h
    have hnone : alookup hd.content
        (sha1 (fetch_tuple server path (expandedQS query tok app)).body) = none :=
      acontains_false_lookup_none hfr
    cases hrt : response_to_table (fetch_tuple server path (expandedQS query tok app)).body with
    | none => simp only [hrt] at h; exact Option.noConfusion h
    | some tbl =>
      simp only [hrt] at h
      rw [fetchtableRead_found (hdSetitem_keymap ..) (hdSetitem_content_fresh _ _ _ _ _ hnone)] at h
      injection h with h
      have h1 := congrArg (fun x => x.1) h
      have h2 := congrArg (fun x => x.2.2.1) h
      have h5 := congrArg (fun x => x.2.2.2.2) h
      simp only at h1 h2 h5
      subst h1
      subst h2
      subst h5
      refine ⟨rfl, hclr, ?_⟩
      exact hdOK_store_strip_fresh sha1 key _ _ tbl _ hok hclr hfr
  · have hfr' : hdContainsHash sha1 hd
        (fetch_tuple server path (expandedQS query tok app)).body = true := by
      cases hx : hdContainsHash sha1 hd
          (fetch_tuple server path (expandedQS query tok app)).body
      · exact absurd hx hfr
      · rfl
    rw [if_neg (by simp [hfr'])] at h
    obtain ⟨sv, hsv⟩ : ∃ sv, alookup hd.content
        (sha1 (fetch_tuple server path (expandedQS query tok app)).body) = some sv := by
      have : acontains hd.content
          (sha1 (fetch_tuple server path (expandedQS query tok app)).body) = true := hfr'
      unfold acontains at this
      exact Option.isSome_iff_exists.mp this
    cases hsvv : sv with
    | none =>
      subst hsvv
      rw [show fetchtableRead (hdSetitem sha1 hd key none
          (fetch_tuple server path (expandedQS query tok app)).body) key = none from ?_] at h
      · exact Option.noConfusion h
      · unfold fetchtableRead hdGetitem
        simp only [hdSetitem_keymap, hdSetitem_content_dup _ _ _ _ _ hfr', hsv]
    | some e =>
      subst hsvv
      have hk1 : alookup (hdSetitem sha1 hd key none
            (fetch_tuple server path (expandedQS query tok app)).body).keymap key
          = some (sha1 (fetch_tuple server path (expandedQS query tok app)).body) :=
        hdSetitem_keymap ..
      have hc1 : alookup (hdSetitem sha1 hd key none
            (fetch_tuple server path (expandedQS query tok app)).body).content
            (sha1 (fetch_tuple server path (expandedQS query tok app)).body)
          = some (some e) := by
        rw [hdSetitem_content_dup _ _ _ _ _ hfr']
        exact hsv
      have hread := fetchtableRead_found hk1 hc1
      rw [hread] at h
      injection h with h
      have h1 := congrArg (fun x => x.1) h
      have h2 := congrArg (fun x => x.2.2.1) h
      have h5 := congrArg (fun x => x.2.2.2.2) h
      simp only at h1 h2 h5
      subst h1
      subst h2
      subst h5
      have hentry : entryOK e = true := hdOK_lookup hok hsv
      refine ⟨rfl, entryOK_headers_le e hentry, ?_⟩
      exact hdOK_store_strip_dup sha1 key _ hok hfr'

/-- Claim C4, amended: a direct-user cache miss whose upstream responds
200 with a JSON object, and whose body's hash is not yet in the Dedup
Map, stores a field table mapping exactly *all* keys of the parsed
object — those beginning with `_` included — and records the sub-key
against the body's hash. -/
theorem fbproxy_c4_amended (sha1 : String → String) (server : Upstream) (query : Query)
    (path : String) (tok : Option String) (app : App) (hd : CacheHD) (key : String)
    (kvs : List (String × Json))
    (h200 : (fetch_tuple server path (expandedQS query tok app)).status = 200)
    (hfresh : hdContainsHash sha1 hd
        (fetch_tuple server path (expandedQS query tok app)).body = false)
    (hobj : jsonLoads (fetch_tuple server path (expandedQS query tok app)).body
        = some (.obj kvs)) :
    fetchtable sha1 server query path tok app hd key
      = some (hdSetitem sha1 hd key (some (storedEntryOf server query path tok app kvs))
            (fetch_tuple server path (expandedQS query tok app)).body,
          (fetch_tuple server path (expandedQS query tok app)).statusline,
          (fetch_tuple server path (expandedQS query tok app)).headers,
          .table kvs, 200)
    ∧ alookup (hdSetitem sha1 hd key (some (storedEntryOf server query path tok app kvs))
          (fetch_tuple server path (expandedQS query tok app)).body).keymap key
        = some (sha1 (fetch_tuple server path (expandedQS query tok app)).body)
    ∧ alookup (hdSetitem sha1 hd key (some (storedEntryOf server query path tok app kvs))
          (fetch_tuple server path (expandedQS query tok app)).body).content
          (sha1 (fetch_tuple server path (expandedQS query tok app)).body)
        = some (some (storedEntryOf server query path tok app kvs)) := by
  have hnone : alookup hd.content
      (sha1 (fetch_tuple server path (expandedQS query tok app)).body) = none :=
    acontains_false_lookup_none hfresh
  have hrt : response_to_table (fetch_tuple server path (expandedQS query tok app)).body
      = some kvs := by
    unfold response_to_table
    rw [hobj]
  refine ⟨?_, hdSetitem_keymap .., hdSetitem_content_fresh _ _ _ _ _ hnone⟩
  simp only [fetchtable]
  rw [if_neg (by simp [h200]), if_pos hfresh]
  simp only [hrt]
  exact fetchtableRead_found (hdSetitem_keymap ..) (hdSetitem_content_fresh _ _ _ _ _ hnone)

theorem alookup_append_fresh {α β : Type} [DecidableEq α] {l : List (α × β)} {k : α}
    (v : β) (h : alookup l k = none) : alookup (l ++ [(k, v)]) k = some v := by
  rw [alookup_append, h]
  show alookup [(k, v)] k = some v
  rw [alookup, if_pos rfl]

/-- Outcome analysis of the critical section: either the outer key was
present (the Dedup Map is the node's value, the LRU is only reordered)
or it was absent (a fresh empty Dedup Map was installed). -/
theorem hr_lock_cases {c : LRU String CacheHD} {key subkey : String}
    {c1 : LRU String CacheHD} {hd : CacheHD} {value : Option Entry}
    (h : hr_lock c key subkey = some (c1, hd, value)) :
    (∃ i pr, alookup c.index key = some i ∧ nodeKV c.nodes i = some pr ∧ pr.2 = hd
      ∧ c1.index = c.index ∧ c1.size = c.size ∧ c1.count = c.count ∧ c1.nextId = c.nextId
      ∧ nodesShape c1.nodes = nodesShape c.nodes
      ∧ ((∃ hsh, alookup hd.keymap subkey = some hsh ∧ alookup hd.content hsh = some value)
         ∨ (alookup hd.keymap subkey = none ∧ value = none)))
    ∨ (alookup c.index key = none ∧ hd = hdNew (Option Entry) ∧ value = none
      ∧ lruSetitem c key (hdNew (Option Entry)) = some c1) := by
  unfold hr_lock at h
  by_cases hpres : lruContains c key
  · rw [if_pos hpres] at h
    left
    obtain ⟨i, hi⟩ : ∃ i, alookup c.index key = some i := by
      unfold lruContains acontains at hpres
      exact Option.isSome_iff_exists.mp hpres
    cases hget : lruGetitem c key with
    | none => rw [hget] at h; exact Option.noConfusion h
    | some pr0 =>
      obtain ⟨c1', vo⟩ := pr0
      rw [hget] at h
      obtain ⟨e1, e2, e3, e4, e5, e6⟩ := lruGetitem_spec hget
      rw [hi] at e6
      cases vo with
      | none => exact Option.noConfusion h
      | some hd0 =>
        obtain ⟨pr, hpr, hpr2⟩ : ∃ pr, nodeKV c.nodes i = some pr ∧ pr.2 = hd0 := by
          have e6h : some hd0 = (nodeKV c.nodes i).map Prod.snd := e6
          cases hnk : nodeKV c.nodes i with
          | none => rw [hnk] at e6h; exact absurd e6h (by simp)
          | some pr =>
            rw [hnk] at e6h
            have e6h2 : some hd0 = some pr.2 := e6h
            injection e6h2 with e6h2
            exact ⟨pr, rfl, e6h2.symm⟩
        unfold hdGetitem at h
        cases halk : alookup hd0.keymap subkey with
        | none =>
          simp only [halk] at h
          injection h with h
          have h1 : c1' = c1 := congrArg Prod.fst h
          have h2 : hd0 = hd := congrArg (fun x => x.2.1) h
          have h3 : (none : Option Entry) = value := congrArg (fun x => x.2.2) h
          subst h1
          subst h2
          subst h3
          exact ⟨i, pr, hi, hpr, hpr2, e1, e2, e3, e4, e5, Or.inr ⟨halk, rfl⟩⟩
        | some hsh =>
          simp only [halk] at h
          cases hct : alookup hd0.content hsh with
          | none => simp only [hct] at h; exact Option.noConfusion h
          | some sv =>
            simp only [hct] at h
            injection h with h
            have h1 : c1' = c1 := congrArg Prod.fst h
            have h2 : hd0 = hd := congrArg (fun x => x.2.1) h
            have h3 : sv = value := congrArg (fun x => x.2.2) h
            subst h1
            subst h2
            subst h3
            exact ⟨i, pr, hi, hpr, hpr2, e1, e2, e3, e4, e5, Or.inl ⟨hsh, halk, hct⟩⟩
  · rw [if_neg hpres] at h
    right
    have hnone : alookup c.index key = none := by
      unfold lruContains acontains at hpres
      cases hl : alookup c.index key with
      | none => rfl
      | some i => rw [hl] at hpres; simp at hpres
    cases hset : lruSetitem c key (hdNew (Option Entry)) with
    | none => rw [hset] at h; exact Option.noConfusion h
    | some c1'' =>
      rw [hset] at h
      injection h with h
      have h1 : c1'' = c1 := congrArg Prod.fst h
      have h2 : hdNew (Option Entry) = hd := congrArg (fun x => x.2.1) h
      have h3 : (none : Option Entry) = value := congrArg (fun x => x.2.2) h
      subst h1
      subst h2
      subst h3
      exact ⟨hnone, rfl, rfl, rfl⟩

/-- Claim C6, amended: on a cache miss whose upstream fetch is non-200
the upstream status line, headers and body are propagated unchanged and
nothing is stored in the Dedup Map (its keymap and content for the
request's outer key are as before), but the outer LRU does change when
the key was absent: the empty Dedup Map installed before the fetch stays
behind, so the key set gains the request's outer key (a present key only
has its recency touched).  The registry of applications is not consulted
at all on this path. -/
theorem fbproxy_c6_amended (sha1 : String → String) (server : Upstream)
    (st : ProxyLruCache) (query : Query) (path qs : String) (app : App)
    (p : HRParams) (st' : ProxyLruCache) (sl : String)
    (hs : List (String × String)) (bd : Payload)
    (hp : hr_params query path = some p)
    (hmiss : hitView st p.key p.subkey = none)
    (hstat : (missFetch server p path qs app).status ≠ 200)
    (hroom : st.cache.count < st.cache.size)
    (hwf : lruWF st.cache = true)
    (hrun : handle_request sha1 server st query path qs app = some (st', (sl, hs, bd))) :
    (sl, hs, bd) = ((missFetch server p path qs app).statusline,
        (missFetch server p path qs app).headers,
        .body (missFetch server p path qs app).body)
    ∧ keymapAt st' p.key = keymapAt st p.key
    ∧ contentAt st' p.key = contentAt st p.key
    ∧ outerKeys st'
        = (if acontains st.cache.index p.key then outerKeys st
           else outerKeys st ++ [p.key]) := by
  unfold handle_request at hrun
  simp only [hp] at hrun
  cases hlock : hr_lock st.cache p.key p.subkey with
  | none => simp only [hlock] at hrun; exact Option.noConfusion hrun
  | some trip =>
    obtain ⟨c1, hd, value⟩ := trip
    simp only [hlock] at hrun
    rcases hr_lock_cases hlock with
      ⟨i, pr, hi, hpr, hpr2, e1, e2, e3, e4, e5, hval⟩ | ⟨habs, hhdnew, hvalnone, hset⟩
    · -- the outer key was present
      have hdat : hdAt st p.key = some hd := by
        rw [hdAt_eq, hi]
        show (nodeKV st.cache.nodes i).map Prod.snd = some hd
        rw [hpr]
        show some pr.2 = some hd
        rw [hpr2]
      have hdat1 : hdAt (⟨c1⟩ : ProxyLruCache) p.key = some hd := by
        rw [hdAt_eq]
        show (alookup c1.index p.key).bind
          (fun j => (nodeKV c1.nodes j).map Prod.snd) = some hd
        rw [e1, hi]
        show (nodeKV c1.nodes i).map Prod.snd = some hd
        rw [nodeKV_congr e5 i, hpr]
        show some pr.2 = some hd
        rw [hpr2]
      have hvn : value = none := by
        rcases hval with ⟨hsh, hkm, hct⟩ | ⟨_, hvn⟩
        · cases hv : value with
          | none => rfl
          | some e =>
            exfalso
            subst hv
            have hget2 : hdGetitem hd p.subkey = HdGet.found (some e) := by
              simp only [hdGetitem, hkm, hct]
            simp only [hitView, hdat, hget2] at hmiss
            exact Option.noConfusion hmiss
        · exact hvn
      subst hvn
      have hconc : (⟨c1⟩ : ProxyLruCache) = st'
          ∧ (sl, hs, bd) = ((missFetch server p path qs app).statusline,
              (missFetch server p path qs app).headers,
              .body (missFetch server p path qs app).body) := by
        cases hut : p.usetable with
        | true =>
          have hstat' : (fetch_tuple server path
              (expandedQS p.query2 p.accesstoken app)).status ≠ 200 := by
            simpa [missFetch, hut] using hstat
          rw [if_pos hut] at hrun
          simp only [fetchtable_non200 sha1 server p.query2 path p.accesstoken
            app hd p.subkey hstat'] at hrun
          rw [if_pos hstat'] at hrun
          injection hrun with hrun
          refine ⟨congrArg Prod.fst hrun, ?_⟩
          have hB : ((fetch_tuple server path
                (expandedQS p.query2 p.accesstoken app)).statusline,
              (fetch_tuple server path (expandedQS p.query2 p.accesstoken app)).headers,
              Payload.body (fetch_tuple server path
                (expandedQS p.query2 p.accesstoken app)).body) = (sl, hs, bd) :=
            congrArg Prod.snd hrun
          rw [← hB]
          simp [missFetch, hut]
        | false =>
          have hstat' : (fetch_tuple server path qs).status ≠ 200 := by
            simpa [missFetch, hut] using hstat
          rw [if_neg (by simp [hut])] at hrun
          rw [if_neg hstat'] at hrun
          injection hrun with hrun
          refine ⟨congrArg Prod.fst hrun, ?_⟩
          have hB : ((fetch_tuple server path qs).statusline,
              (fetch_tuple server path qs).headers,
              Payload.body (fetch_tuple server path qs).body) = (sl, hs, bd) :=
            congrArg Prod.snd hrun
          rw [← hB]
          simp [missFetch, hut]
      obtain ⟨hA, hresp⟩ := hconc
      refine ⟨hresp, ?_, ?_, ?_⟩
      · rw [← hA]
        unfold keymapAt
        rw [hdat1, hdat]
      · rw [← hA]
        unfold contentAt
        rw [hdat1, hdat]
      · rw [← hA]
        unfold outerKeys lruKeys
        show c1.index.map Prod.fst = _
        rw [e1, if_pos (by unfold acontains; rw [hi]; rfl)]
    · -- the outer key was absent: a fresh empty Dedup Map was installed
      subst hhdnew
      subst hvalnone
      obtain ⟨f1, f2, f3, f4, f5⟩ :=
        lruSetitem_absent_room_spec habs (by omega) hset
      have hshape : nodesShape c1.nodes
          = nodesShape (st.cache.nodes
              ++ [(st.cache.nextId, ⟨p.key, hdNew (Option Entry), none, none⟩)]) := by
        rw [f2, nodesShape_append_one]
      have hdat1 : hdAt (⟨c1⟩ : ProxyLruCache) p.key = some (hdNew (Option Entry)) := by
        rw [hdAt_eq]
        show (alookup c1.index p.key).bind
          (fun j => (nodeKV c1.nodes j).map Prod.snd) = _
        rw [f1, aset_eq_append _ habs, alookup_append_fresh _ habs]
        show (nodeKV c1.nodes st.cache.nextId).map Prod.snd = _
        rw [nodeKV_congr hshape st.cache.nextId,
          nodeKV_append_fresh _ _ _ (lruWF_nextId_none st.cache hwf)]
        rfl
      have hdat0 : hdAt st p.key = none := by
        rw [hdAt_eq, habs]
        rfl
      have hconc : (⟨c1⟩ : ProxyLruCache) = st'
          ∧ (sl, hs, bd) = ((missFetch server p path qs app).statusline,
              (missFetch server p path qs app).headers,
              .body (missFetch server p path qs app).body) := by
        cases hut : p.usetable with
        | true =>
          have hstat' : (fetch_tuple server path
              (expandedQS p.query2 p.accesstoken app)).status ≠ 200 := by
            simpa [missFetch, hut] using hstat
          rw [if_pos hut] at hrun
          simp only [fetchtable_non200 sha1 server p.query2 path p.accesstoken
            app (hdNew (Option Entry)) p.subkey hstat'] at hrun
          rw [if_pos hstat'] at hrun
          injection hrun with hrun
          refine ⟨congrArg Prod.fst hrun, ?_⟩
          have hB : ((fetch_tuple server path
                (expandedQS p.query2 p.accesstoken app)).statusline,
              (fetch_tuple server path (expandedQS p.query2 p.accesstoken app)).headers,
              Payload.body (fetch_tuple server path
                (expandedQS p.query2 p.accesstoken app)).body) = (sl, hs, bd) :=
            congrArg Prod.snd hrun
          rw [← hB]
          simp [missFetch, hut]
        | false =>
          have hstat' : (fetch_tuple server path qs).status ≠ 200 := by
            simpa [missFetch, hut] using hstat
          rw [if_neg (by simp [hut])] at hrun
          rw [if_neg hstat'] at hrun
          injection hrun with hrun
          refine ⟨congrArg Prod.fst hrun, ?_⟩
          have hB : ((fetch_tuple server path qs).statusline,
              (fetch_tuple server path qs).headers,
              Payload.body (fetch_tuple server path qs).body) = (sl, hs, bd) :=
            congrArg Prod.snd hrun
          rw [← hB]
          simp [missFetch, hut]
      obtain ⟨hA, hresp⟩ := hconc
      refine ⟨hresp, ?_, ?_, ?_⟩
      · rw [← hA]
        unfold keymapAt
        rw [hdat1, hdat0]
        rfl
      · rw [← hA]
        unfold contentAt
        rw [hdat1, hdat0]
        rfl
      · rw [← hA]
        unfold outerKeys lruKeys
        show c1.index.map Prod.fst = _
        rw [f1, aset_eq_append _ habs,
          if_neg (by unfold acontains; rw [habs]; simp)]
        simp

/-- Witness for the amended C4 at the concrete counterexample inputs. -/
theorem fbproxy_c4_amended_witness :
    fetchtable (fun s => s) c4Upstream [] "u1" (some "tok") c4App (hdNew (Option Entry)) "u1__"
      = some (hdSetitem (fun s => s) (hdNew (Option Entry)) "u1__"
            (some (storedEntryOf c4Upstream [] "u1" (some "tok") c4App
              [("_a", Json.num 1), ("b", Json.num 2)]))
            "\x7b\"_a\":1,\"b\":2\x7d",
          "200 OK", [], .table [("_a", Json.num 1), ("b", Json.num 2)], 200)
    ∧ alookup (hdSetitem (fun s => s) (hdNew (Option Entry)) "u1__"
          (some (storedEntryOf c4Upstream [] "u1" (some "tok") c4App
            [("_a", Json.num 1), ("b", Json.num 2)]))
          "\x7b\"_a\":1,\"b\":2\x7d").keymap "u1__"
        = some "\x7b\"_a\":1,\"b\":2\x7d"
    ∧ alookup (hdSetitem (fun s => s) (hdNew (Option Entry)) "u1__"
          (some (storedEntryOf c4Upstream [] "u1" (some "tok") c4App
            [("_a", Json.num 1), ("b", Json.num 2)]))
          "\x7b\"_a\":1,\"b\":2\x7d").content "\x7b\"_a\":1,\"b\":2\x7d"
        = some (some (storedEntryOf c4Upstream [] "u1" (some "tok") c4App
            [("_a", Json.num 1), ("b", Json.num 2)])) :=
  fbproxy_c4_amended (fun s => s) c4Upstream [] "u1" (some "tok") c4App
    (hdNew (Option Entry)) "u1__" [("_a", Json.num 1), ("b", Json.num 2)] rfl rfl rfl

/-- Witness for the amended C6 at the concrete counterexample inputs. -/
theorem fbproxy_c6_amended_witness :
    (c6Res.2.1, c6Res.2.2.1, c6Res.2.2.2)
        = ((missFetch c6Upstream c6P "u1" "qs" c6App).statusline,
           (missFetch c6Upstream c6P "u1" "qs" c6App).headers,
           .body (missFetch c6Upstream c6P "u1" "qs" c6App).body)
    ∧ keymapAt c6Res.1 c6P.key = keymapAt (cacheNew 10000) c6P.key
    ∧ contentAt c6Res.1 c6P.key = contentAt (cacheNew 10000) c6P.key
    ∧ outerKeys c6Res.1
        = (if acontains (cacheNew 10000).cache.index c6P.key
           then outerKeys (cacheNew 10000)
           else outerKeys (cacheNew 10000) ++ [c6P.key]) :=
  fbproxy_c6_amended (fun s => s) c6Upstream (cacheNew 10000) c6Query "u1" "qs" c6App
    c6P c6Res.1 c6Res.2.1 c6Res.2.2.1 c6Res.2.2.2
    rfl rfl (by decide) (by decide) rfl rfl

/-- Claim C5: every cached direct-user (table-path) response — the miss
response that stores the entry and every later hit served from that
entry — carries no Content-Length header.  Formally, under an upstream
whose responses carry at most one Content-Length header: a fresh cache
satisfies the invariant that every stored table entry has
Content-Length-free headers; `invalidate` and `handle_request` preserve
it; and a table-path response is always Content-Length-free unless it is
served from an entry the raw (connection) path stored — never the entry
a table-path miss stores — or is the uncached pass-through of a non-200
miss. -/
theorem fbproxy_c5_confirmed (sha1 : String → String) (server : Upstream)
    (hcl : upstreamCL1 server) :
    (∀ size, cacheOK (cacheNew size) = true)
    ∧ (∀ st appid url st1, invalidate st appid url = some st1 →
        cacheOK st = true → cacheOK st1 = true)
    ∧ (∀ st query path qs app st1 sl hs bd,
        cacheOK st = true →
        handle_request sha1 server st query path qs app = some (st1, (sl, hs, bd)) →
        cacheOK st1 = true
        ∧ (∀ q, hr_params query path = some q → q.usetable = true →
            noCL hs = true
            ∨ (∃ e0 b, hitView st q.key q.subkey = some e0
                ∧ e0.payload = Payload.body b ∧ hs = e0.headers ∧ countCL hs ≤ 1)
            ∨ (hitView st q.key q.subkey = none
                ∧ (missFetch server q path qs app).status ≠ 200
                ∧ hs = (missFetch server q path qs app).headers))) := by
  refine ⟨fun size => rfl, ?_, ?_⟩
  · intro st appid url st1 hinv hok
    have hok' : nodesOK st.cache.nodes = true := hok
    simp only [invalidate] at hinv
    cases h1 : (if lruContains st.cache (url ++ "__" ++ appid)
        then lruDelitem st.cache (url ++ "__" ++ appid) else some st.cache) with
    | none => simp only [h1] at hinv; exact Option.noConfusion hinv
    | some c1 =>
      simp only [h1] at hinv
      have hs1 : nodesShape c1.nodes = nodesShape st.cache.nodes := by
        by_cases hc : lruContains st.cache (url ++ "__" ++ appid)
        · rw [if_pos hc] at h1
          exact (lruDelitem_spec h1).2.1
        · rw [if_neg hc] at h1
          injection h1 with h1
          rw [← h1]
      cases h2 : (if lruContains c1 (url ++ "__0")
          then lruDelitem c1 (url ++ "__0") else some c1) with
      | none => simp only [h2] at hinv; exact Option.noConfusion hinv
      | some c2 =>
        simp only [h2] at hinv
        injection hinv with hinv
        have hs2 : nodesShape c2.nodes = nodesShape c1.nodes := by
          by_cases hc : lruContains c1 (url ++ "__0")
          · rw [if_pos hc] at h2
            exact (lruDelitem_spec h2).2.1
          · rw [if_neg hc] at h2
            injection h2 with h2
            rw [← h2]
        rw [← hinv]
        show nodesOK c2.nodes = true
        rw [nodesOK_congr (hs2.trans hs1)]
        exact hok'
  · intro st query path qs app st1 sl hs bd hok hrun
    have hok' : nodesOK st.cache.nodes = true := hok
    unfold handle_request at hrun
    cases hp : hr_params query path with
    | none => simp only [hp] at hrun; exact Option.noConfusion hrun
    | some p =>
      simp only [hp] at hrun
      cases hlock : hr_lock st.cache p.key p.subkey with
      | none => simp only [hlock] at hrun; exact Option.noConfusion hrun
      | some trip =>
        obtain ⟨c1, hd, value⟩ := trip
        cases value with
        | some e =>
          simp only [hlock] at hrun
          rcases hr_lock_cases hlock with
            ⟨i, pr, hi, hpr, hpr2, e1, e2, e3, e4, e5, hval⟩ | ⟨habs, hhdnew, hvalnone, hset⟩
          · have hnOK1 : nodesOK c1.nodes = true := by
              rw [nodesOK_congr e5]
              exact hok'
            have hdat : hdAt st p.key = some hd := by
              rw [hdAt_eq, hi]
              show (nodeKV st.cache.nodes i).map Prod.snd = some hd
              rw [hpr]
              show some pr.2 = some hd
              rw [hpr2]
            have hdok : hdOK hd = true := by
              obtain ⟨n, hn, hnv2⟩ : ∃ n, nlookup st.cache.nodes i = some n
                  ∧ n.value = pr.2 := by
                unfold nodeKV at hpr
                cases hn : nlookup st.cache.nodes i with
                | none => rw [hn] at hpr; exact absurd hpr (by simp)
                | some n =>
                  rw [hn] at hpr
                  have hpr' : some (n.key, n.value) = some pr := hpr
                  injection hpr' with hpr'
                  exact ⟨n, rfl, congrArg Prod.snd hpr'⟩
              rw [← hpr2, ← hnv2]
              exact nodesOK_lookup hok' hn
            rcases hval with ⟨hsh, halk, hct⟩ | ⟨_, hvn⟩
            · have hok_e : entryOK e = true := hdOK_lookup hdok hct
              have hhit : hitView st p.key p.subkey = some e := by
                have hg : hdGetitem hd p.subkey = HdGet.found (some e) := by
                  simp only [hdGetitem, halk, hct]
                simp only [hitView, hdat, hg]
              cases hut : p.usetable with
              | true =>
                rw [if_pos hut] at hrun
                cases hresp : get_response e.payload p.fields with
                | none => simp only [hresp] at hrun; exact Option.noConfusion hrun
                | some body =>
                  simp only [hresp] at hrun
                  injection hrun with hrun
                  have hA : (⟨c1⟩ : ProxyLruCache) = st1 := congrArg Prod.fst hrun
                  have hH : e.headers = hs := congrArg (fun x => x.2.2.1) hrun
                  refine ⟨by rw [← hA]; exact hnOK1, ?_⟩
                  intro q hq hqt
                  have hpq : p = q := Option.some.inj hq
                  subst hpq
                  cases hpay : e.payload with
                  | table t =>
                    left
                    have ht := hok_e
                    simp only [entryOK, hpay] at ht
                    rw [← hH]
                    exact ht
                  | body b =>
                    right
                    left
                    refine ⟨e, b, hhit, hpay, hH.symm, ?_⟩
                    rw [← hH]
                    exact entryOK_headers_le e hok_e
              | false =>
                rw [if_neg (by simp [hut])] at hrun
                injection hrun with hrun
                have hA : (⟨c1⟩ : ProxyLruCache) = st1 := congrArg Prod.fst hrun
                refine ⟨by rw [← hA]; exact hnOK1, ?_⟩
                intro q hq hqt
                have hpq : p = q := Option.some.inj hq
                rw [← hpq] at hqt
                rw [hut] at hqt
                exact Bool.noConfusion hqt
            · exact Option.noConfusion hvn
          · exact Option.noConfusion hvalnone
        | none =>
          simp only [hlock] at hrun
          rcases hr_lock_cases hlock with
            ⟨i, pr, hi, hpr, hpr2, e1, e2, e3, e4, e5, hval⟩ | ⟨habs, hhdnew, hvalnone, hset⟩
          · have hnOK1 : nodesOK c1.nodes = true := by
              rw [nodesOK_congr e5]
              exact hok'
            have hdat : hdAt st p.key = some hd := by
              rw [hdAt_eq, hi]
              show (nodeKV st.cache.nodes i).map Prod.snd = some hd
              rw [hpr]
              show some pr.2 = some hd
              rw [hpr2]
            have hdok : hdOK hd = true := by
              obtain ⟨n, hn, hnv2⟩ : ∃ n, nlookup st.cache.nodes i = some n
                  ∧ n.value = pr.2 := by
                unfold nodeKV at hpr
                cases hn : nlookup st.cache.nodes i with
                | none => rw [hn] at hpr; exact absurd hpr (by simp)
                | some n =>
                  rw [hn] at hpr
                  have hpr' : some (n.key, n.value) = some pr := hpr
                  injection hpr' with hpr'
                  exact ⟨n, rfl, congrArg Prod.snd hpr'⟩
              rw [← hpr2, ← hnv2]
              exact nodesOK_lookup hok' hn
            have hvnone : hitView st p.key p.subkey = none := by
              rcases hval with ⟨hsh, halk, hct⟩ | ⟨halk, _⟩
              · have hg : hdGetitem hd p.subkey = HdGet.found none := by
                  simp only [hdGetitem, halk, hct]
                simp only [hitView, hdat, hg]
              · have hg : hdGetitem hd p.subkey = HdGet.pyNone := by
                  simp only [hdGetitem, halk]
                simp only [hitView, hdat, hg]
            cases hut : p.usetable with
            | true =>
              rw [if_pos hut] at hrun
              cases hft : fetchtable sha1 server p.query2 path p.accesstoken app hd p.subkey with
              | none => simp only [hft] at hrun; exact Option.noConfusion hrun
              | some out =>
                obtain ⟨hd1, sl0, hs0, pay0, stat0⟩ := out
                simp only [hft] at hrun
                by_cases hfs : (fetch_tuple server path
                    (expandedQS p.query2 p.accesstoken app)).status = 200
                · obtain ⟨hstat0, hcl0, hdok2⟩ := fetchtable_200_spec hdok hcl hfs hft
                  rw [if_neg (by simp [hstat0])] at hrun
                  cases hresp : get_response pay0 p.fields with
                  | none => simp only [hresp] at hrun; exact Option.noConfusion hrun
                  | some body =>
                    simp only [hresp] at hrun
                    injection hrun with hrun
                    have hA : (⟨lruWriteVal c1 p.key (hdStripCL hd1 p.subkey)⟩ : ProxyLruCache)
                        = st1 := congrArg Prod.fst hrun
                    have hH : removeFirstCL hs0 = hs := congrArg (fun x => x.2.2.1) hrun
                    refine ⟨?_, ?_⟩
                    · rw [← hA]
                      show nodesOK (lruWriteVal c1 p.key (hdStripCL hd1 p.subkey)).nodes = true
                      exact nodesOK_lruWriteVal p.key hnOK1 hdok2
                    · intro q hq hqt
                      left
                      rw [← hH]
                      exact noCL_removeFirstCL hs0 hcl0
                · have hft2 := fetchtable_non200 sha1 server p.query2 path p.accesstoken
                    app hd p.subkey hfs
                  rw [hft] at hft2
                  injection hft2 with hft2
                  have hstat0 : stat0 = (fetch_tuple server path
                      (expandedQS p.query2 p.accesstoken app)).status :=
                    congrArg (fun x => x.2.2.2.2) hft2
                  have hhs0 : hs0 = (fetch_tuple server path
                      (expandedQS p.query2 p.accesstoken app)).headers :=
                    congrArg (fun x => x.2.2.1) hft2
                  have hne : stat0 ≠ 200 := by rw [hstat0]; exact hfs
                  rw [if_pos hne] at hrun
                  injection hrun with hrun
                  have hA : (⟨c1⟩ : ProxyLruCache) = st1 := congrArg Prod.fst hrun
                  have hH : hs0 = hs := congrArg (fun x => x.2.2.1) hrun
                  refine ⟨by rw [← hA]; exact hnOK1, ?_⟩
                  intro q hq hqt
                  have hpq : p = q := Option.some.inj hq
                  subst hpq
                  right
                  right
                  refine ⟨hvnone, ?_, ?_⟩
                  · show (missFetch server p path qs app).status ≠ 200
                    unfold missFetch
                    rw [if_pos hut]
                    exact hfs
                  · show hs = (missFetch server p path qs app).headers
                    unfold missFetch
                    rw [if_pos hut, ← hH]
                    exact hhs0
            | false =>
              rw [if_neg (by simp [hut])] at hrun
              by_cases hfs : (fetch_tuple server path qs).status = 200
              · rw [if_pos hfs] at hrun
                injection hrun with hrun
                have hA : (⟨lruWriteVal c1 p.key (hdSetitem sha1 hd p.subkey
                    (some ⟨(fetch_tuple server path qs).statusline,
                      (fetch_tuple server path qs).headers,
                      .body (fetch_tuple server path qs).body⟩)
                    (fetch_tuple server path qs).body)⟩ : ProxyLruCache) = st1 :=
                  congrArg Prod.fst hrun
                refine ⟨?_, ?_⟩
                · rw [← hA]
                  show nodesOK (lruWriteVal c1 p.key (hdSetitem sha1 hd p.subkey
                      (some ⟨(fetch_tuple server path qs).statusline,
                        (fetch_tuple server path qs).headers,
                        .body (fetch_tuple server path qs).body⟩)
                      (fetch_tuple server path qs).body)).nodes = true
                  exact nodesOK_lruWriteVal p.key hnOK1
                    (hdOK_setitem_body sha1 _ _ _ _ _ hdok (hcl "GET" path qs))
                · intro q hq hqt
                  have hpq : p = q := Option.some.inj hq
                  rw [← hpq] at hqt
                  rw [hut] at hqt
                  exact Bool.noConfusion hqt
              · rw [if_neg hfs] at hrun
                injection hrun with hrun
                have hA : (⟨c1⟩ : ProxyLruCache) = st1 := congrArg Prod.fst hrun
                refine ⟨by rw [← hA]; exact hnOK1, ?_⟩
                intro q hq hqt
                have hpq : p = q := Option.some.inj hq
                rw [← hpq] at hqt
                rw [hut] at hqt
                exact Bool.noConfusion hqt
          · subst hhdnew
            have hnOK1 : nodesOK c1.nodes = true := by
              have hshape := lruSetitem_absent_spec habs hset
              have hshape2 : nodesShape c1.nodes = nodesShape (st.cache.nodes
                  ++ [(st.cache.nextId, ⟨p.key, hdNew (Option Entry), none, none⟩)]) := by
                rw [hshape, nodesShape_append_one]
              rw [nodesOK_congr hshape2, nodesOK_append_one, hok']
              rfl
            have hdok : hdOK (hdNew (Option Entry)) = true := rfl
            have hvnone : hitView st p.key p.subkey = none := by
              have hdat0 : hdAt st p.key = none := by
                rw [hdAt_eq, habs]
                rfl
              simp only [hitView, hdat0]
            cases hut : p.usetable with
            | true =>
              rw [if_pos hut] at hrun
              cases hft : fetchtable sha1 server p.query2 path p.accesstoken app
                  (hdNew (Option Entry)) p.subkey with
              | none => simp only [hft] at hrun; exact Option.noConfusion hrun
              | some out =>
                obtain ⟨hd1, sl0, hs0, pay0, stat0⟩ := out
                simp only [hft] at hrun
                by_cases hfs : (fetch_tuple server path
                    (expandedQS p.query2 p.accesstoken app)).status = 200
                · obtain ⟨hstat0, hcl0, hdok2⟩ := fetchtable_200_spec hdok hcl hfs hft
                  rw [if_neg (by simp [hstat0])] at hrun
                  cases hresp : get_response pay0 p.fields with
                  | none => simp only [hresp] at hrun; exact Option.noConfusion hrun
                  | some body =>
                    simp only [hresp] at hrun
                    injection hrun with hrun
                    have hA : (⟨lruWriteVal c1 p.key (hdStripCL hd1 p.subkey)⟩ : ProxyLruCache)
                        = st1 := congrArg Prod.fst hrun
                    have hH : removeFirstCL hs0 = hs := congrArg (fun x => x.2.2.1) hrun
                    refine ⟨?_, ?_⟩
                    · rw [← hA]
                      show nodesOK (lruWriteVal c1 p.key (hdStripCL hd1 p.subkey)).nodes = true
                      exact nodesOK_lruWriteVal p.key hnOK1 hdok2
                    · intro q hq hqt
                      left
                      rw [← hH]
                      exact noCL_removeFirstCL hs0 hcl0
                · have hft2 := fetchtable_non200 sha1 server p.query2 path p.accesstoken
                    app (hdNew (Option Entry)) p.subkey hfs
                  rw [hft] at hft2
                  injection hft2 with hft2
                  have hstat0 : stat0 = (fetch_tuple server path
                      (expandedQS p.query2 p.accesstoken app)).status :=
                    congrArg (fun x => x.2.2.2.2) hft2
                  have hhs0 : hs0 = (fetch_tuple server path
                      (expandedQS p.query2 p.accesstoken app)).headers :=
                    congrArg (fun x => x.2.2.1) hft2
                  have hne : stat0 ≠ 200 := by rw [hstat0]; exact hfs
                  rw [if_pos hne] at hrun
                  injection hrun with hrun
                  have hA : (⟨c1⟩ : ProxyLruCache) = st1 := congrArg Prod.fst hrun
                  have hH : hs0 = hs := congrArg (fun x => x.2.2.1) hrun
                  refine ⟨by rw [← hA]; exact hnOK1, ?_⟩
                  intro q hq hqt
                  have hpq : p = q := Option.some.inj hq
                  subst hpq
                  right
                  right
                  refine ⟨hvnone, ?_, ?_⟩
                  · show (missFetch server p path qs app).status ≠ 200
                    unfold missFetch
                    rw [if_pos hut]
                    exact hfs
                  · show hs = (missFetch server p path qs app).headers
                    unfold missFetch
                    rw [if_pos hut, ← hH]
                    exact hhs0
            | false =>
              rw [if_neg (by simp [hut])] at hrun
              by_cases hfs : (fetch_tuple server path qs).status = 200
              · rw [if_pos hfs] at hrun
                injection hrun with hrun
                have hA : (⟨lruWriteVal c1 p.key (hdSetitem sha1 (hdNew (Option Entry)) p.subkey
                    (some ⟨(fetch_tuple server path qs).statusline,
                      (fetch_tuple server path qs).headers,
                      .body (fetch_tuple server path qs).body⟩)
                    (fetch_tuple server path qs).body)⟩ : ProxyLruCache) = st1 :=
                  congrArg Prod.fst hrun
                refine ⟨?_, ?_⟩
                · rw [← hA]
                  show nodesOK (lruWriteVal c1 p.key (hdSetitem sha1 (hdNew (Option Entry))
                      p.subkey (some ⟨(fetch_tuple server path qs).statusline,
                        (fetch_tuple server path qs).headers,
                        .body (fetch_tuple server path qs).body⟩)
                      (fetch_tuple server path qs).body)).nodes = true
                  exact nodesOK_lruWriteVal p.key hnOK1
                    (hdOK_setitem_body sha1 _ _ _ _ _ hdok (hcl "GET" path qs))
                · intro q hq hqt
                  have hpq : p = q := Option.some.inj hq
                  rw [← hpq] at hqt
                  rw [hut] at hqt
                  exact Bool.noConfusion hqt
              · rw [if_neg hfs] at hrun
                injection hrun with hrun
                have hA : (⟨c1⟩ : ProxyLruCache) = st1 := congrArg Prod.fst hrun
                refine ⟨by rw [← hA]; exact hnOK1, ?_⟩
                intro q hq hqt
                have hpq : p = q := Option.some.inj hq
                rw [← hpq] at hqt
                rw [hut] at hqt
                exact Bool.noConfusion hqt

/-- Witness for C5: its conjuncts applied to a fresh cache and to a
concrete direct-user miss against an upstream that sends one
Content-Length header. -/
theorem fbproxy_c5_confirmed_witness :
    cacheOK (cacheNew 5) = true ∧ cacheOK c5wRes.1 = true :=
  ⟨(fbproxy_c5_confirmed (fun s => s) c5wUp (fun _ _ _ => by show countCL [("Content-Length", "2")] ≤ 1; decide)).1 5,
   ((fbproxy_c5_confirmed (fun s => s) c5wUp (fun _ _ _ => by show countCL [("Content-Length", "2")] ≤ 1; decide)).2.2
      (cacheNew 10) c6Query "u1" "qs" c6App
      c5wRes.1 c5wRes.2.1 c5wRes.2.2.1 c5wRes.2.2.2 (by decide) rfl).1⟩

end FbProxy

